import Mathlib

/-!
Verification of the bigquery-lite backend against its specification.

The developments below are shallow embeddings of:
- `backend/protobuf_ingester.py` (value rendering, bulk-insert SQL generation,
  newline-delimited protobuf decoding, record preparation, batched ingestion);
- the ingestion endpoint and request validation of `backend/app.py`;
- the job queue / slot accounting of `backend/app.py`
  (`submit_query`, `process_job_queue`, `execute_job`, `cancel_job`,
  `get_job_status`);
- the slot scheduler of `scripts/scheduler.py` (`BigQueryLiteScheduler`);
- the schema registry of `backend/schema_registry.py`
  (`register_schema_from_json`).

External Python libraries (the protobuf runtime, `json.dumps`, `hashlib`,
database drivers, wall clocks) are abstracted as function parameters; all
project logic is translated directly from the source.
-/

set_option maxHeartbeats 1000000

namespace BqLite

/-! ### Values handled by the ingester

`protobuf_ingester.py` moves Python values of type `None`, `str`, `bool`,
`int` and `float` between decoded messages and SQL text.  IEEE doubles are
abstracted by their Python `str()` rendering, carried as a string. -/

/-- A database-bound Python value as handled by `protobuf_ingester.py`. -/
inductive DbValue where
  | null : DbValue
  | str (s : String) : DbValue
  | boolean (b : Bool) : DbValue
  | int (i : Int) : DbValue
  | float (text : String) : DbValue
deriving DecidableEq

/-- The SQL single-quote character (code point 39). -/
def sq : Char := Char.ofNat 39

/-- Quote escaping from `_generate_bulk_insert_sql`
(`value.replace` of one single quote by two): every single quote in the
character list is doubled. -/
def escapeQuotes : List Char → List Char
  | [] => []
  | c :: cs => if c = sq then sq :: sq :: escapeQuotes cs else c :: escapeQuotes cs

/-- Inverse of quote doubling: each doubled single quote is collapsed back to
one quote. -/
def unescapeQuotes : List Char → List Char
  | [] => []
  | [c] => [c]
  | c :: c2 :: cs =>
    if c = sq then c :: unescapeQuotes cs else c :: unescapeQuotes (c2 :: cs)

/-- A string value rendered as a SQL literal: surrounded by single quotes,
with embedded single quotes doubled (protobuf_ingester.py lines 429-432). -/
def quoteStr (s : String) : String :=
  String.mk (sq :: (escapeQuotes s.data ++ [sq]))

/-- Rendering of one value inside `_generate_bulk_insert_sql`
(protobuf_ingester.py lines 426-440): `None` becomes `NULL`, a string is
quoted with quotes doubled, a boolean becomes `TRUE`/`FALSE` (this branch is
tested before the numeric one, as in the source), and an int or float is
rendered by `str(value)`. -/
def renderValue : DbValue → String
  | .null => "NULL"
  | .str s => quoteStr s
  | .boolean b => if b then "TRUE" else "FALSE"
  | .int i => toString i
  | .float text => text

/-- A prepared record / decoded message: a Python dict embedded as an
association list in insertion order. -/
abbrev Record := List (String × DbValue)

/-- Dictionary read `record.get(col)`: a missing key yields Python `None`,
embedded as `DbValue.null` (both a missing key and an explicit `None` render
as `NULL`, as in the source). -/
def recordGet (r : Record) (k : String) : DbValue :=
  match r.lookup k with
  | some v => v
  | none => .null

/-- Column-name quoting from `_generate_bulk_insert_sql`: each column is
wrapped in double quotes. -/
def quoteCol (c : String) : String := "\"" ++ c ++ "\""

/-- Comma-space join, as used by the SQL generator. -/
def commaJoin (l : List String) : String := String.intercalate ", " l

/-- One VALUES tuple of `_generate_bulk_insert_sql`. -/
def renderRow (columns : List String) (r : Record) : String :=
  "(" ++ commaJoin (columns.map (fun c => renderValue (recordGet r c))) ++ ")"

/-- `_generate_bulk_insert_sql` (protobuf_ingester.py lines 399-450): the
empty batch gives the empty string; otherwise a single INSERT statement
targeting `database_name.table_name` whose column list comes from the keys of
the first record, reproducing the f-string layout of the source. -/
def generateBulkInsertSql (records : List Record) (tableName databaseName : String) :
    String :=
  match records with
  | [] => ""
  | r0 :: _ =>
    let columns := r0.map Prod.fst
    let columnNames := commaJoin (columns.map quoteCol)
    let valuesClauses := commaJoin (records.map (renderRow columns))
    "\n            INSERT INTO " ++ databaseName ++ "." ++ tableName ++ " ("
      ++ columnNames ++ ")\n            VALUES " ++ valuesClauses ++ "\n        "

/-! ### Decoding newline-delimited protobuf data

`decode_protobuf_messages` splits the binary blob on the newline byte,
numbers the fragments from 1, skips fragments that are blank after stripping,
and decodes the rest.  The compiled protobuf message class is abstracted by a
partial per-line decoder `dec`; the wall clock by the string `now`. -/

/-- Bytes are embedded as natural numbers below 256. -/
abbrev Byte := Nat

/-- ASCII whitespace test used by Python `bytes.strip()`. -/
def isSpaceByte (b : Byte) : Bool :=
  b = 32 || b = 9 || b = 10 || b = 13 || b = 11 || b = 12

/-- Python `bytes.strip()`: ASCII whitespace removed from both ends. -/
def stripBytes (l : List Byte) : List Byte :=
  ((l.dropWhile isSpaceByte).reverse.dropWhile isSpaceByte).reverse

/-- The loop body of `decode_protobuf_messages` (protobuf_ingester.py lines
213-238): fragments are numbered from 1 before any filtering; a blank line is
skipped; a line whose decode fails is logged and skipped, without an error
being recorded anywhere; a decoded message gets the bookkeeping keys
`_line_number` and `_ingestion_timestamp` appended. -/
def decodeLines (dec : List Byte → Option Record) (now : String) :
    List (List Byte) → Nat → List Record
  | [], _ => []
  | line :: rest, lineNum =>
    if stripBytes line = [] then decodeLines dec now rest (lineNum + 1)
    else
      match dec (stripBytes line) with
      | some m =>
        (m ++ [("_line_number", DbValue.int lineNum),
               ("_ingestion_timestamp", DbValue.str now)])
          :: decodeLines dec now rest (lineNum + 1)
      | none => decodeLines dec now rest (lineNum + 1)

/-- `decode_protobuf_messages` (protobuf_ingester.py lines 189-244): split the
blob on byte `0x0A` and run the per-line loop. -/
def decodeProtobufMessages (dec : List Byte → Option Record) (now : String)
    (pbData : List Byte) : List Record :=
  decodeLines dec now (pbData.splitOn 10) 1

/-! ### Preparing records for insertion -/

/-- `_get_default_value` (protobuf_ingester.py lines 327-346): the fixed
non-null default used for a schema field missing from a message; an unknown
type tag defaults to `None`.  The TIMESTAMP default is the current wall
clock, passed in as `now`. -/
def getDefaultValue (now : String) (fieldType : String) : DbValue :=
  if fieldType = "STRING" then .str ""
  else if fieldType = "INTEGER" then .int 0
  else if fieldType = "FLOAT" then .float "0.0"
  else if fieldType = "BOOLEAN" then .boolean false
  else if fieldType = "TIMESTAMP" then .str now
  else if fieldType = "RECORD" then .str "\x7b\x7d"
  else if fieldType = "REPEATED" then .str "[]"
  else .null

/-- `prepare_records_for_insertion` applied to one decoded message
(protobuf_ingester.py lines 266-282), parameterized by `conv`, the embedding
of `_convert_field_value` (whose per-type coercions delegate to Python
builtins).  `fieldTypes` is the name-to-type mapping built from the top-level
schema fields; iteration follows its order.  A field present in the message
is converted; a missing field gets its type default; keys of the message not
named in the schema are not copied; the two bookkeeping keys are then read
back from the message and appended. -/
def prepareRecord (conv : DbValue → String → DbValue) (now : String)
    (fieldTypes : List (String × String)) (msg : Record) : Record :=
  (fieldTypes.map (fun ft =>
      match msg.lookup ft.1 with
      | some v => (ft.1, conv v ft.2)
      | none => (ft.1, getDefaultValue now ft.2)))
    ++ [("_line_number", recordGet msg "_line_number"),
        ("_ingestion_timestamp", recordGet msg "_ingestion_timestamp")]

/-- `prepare_records_for_insertion` (protobuf_ingester.py lines 246-284) over
a list of decoded messages. -/
def prepareRecords (conv : DbValue → String → DbValue) (now : String)
    (fieldTypes : List (String × String)) (msgs : List Record) : List Record :=
  msgs.map (prepareRecord conv now fieldTypes)

/-! ### Batched ingestion

`ingest_to_database` cuts the prepared records into batches of `batch_size`,
runs one generated INSERT per batch, counts inserted records, and collects
one error string per failed batch.  The engine runner is abstracted as
`run : String → Option String`, returning `some err` when the result dict
carries an `error` entry (an exception raised by the runner is folded into
the same case: both paths append one error per batch and insert nothing). -/

/-- The batch loop of `ingest_to_database` (protobuf_ingester.py lines
374-396) with batch size `b + 1`; `batchIdx` is the 1-based batch number used
in error messages.  Each iteration consumes at least one record, so the
recursion is fueled by the record count (see `ingestLoop`). -/
def ingestLoopF (run : String → Option String) (tableName databaseName : String)
    (b : Nat) : Nat → List Record → Nat → Nat × List String
  | 0, _, _ => (0, [])
  | _, [], _ => (0, [])
  | fuel + 1, r :: rs, batchIdx =>
    let batch := (r :: rs).take (b + 1)
    let p := ingestLoopF run tableName databaseName b fuel (rs.drop b) (batchIdx + 1)
    match run (generateBulkInsertSql batch tableName databaseName) with
    | some err => (p.1, ("Batch " ++ toString batchIdx ++ ": " ++ err) :: p.2)
    | none => (batch.length + p.1, p.2)

/-- The batch loop of `ingest_to_database`, started with enough fuel for all
records. -/
def ingestLoop (run : String → Option String) (tableName databaseName : String)
    (b : Nat) (recs : List Record) (batchIdx : Nat) : Nat × List String :=
  ingestLoopF run tableName databaseName b recs.length recs batchIdx

/-- `ingest_to_database` (protobuf_ingester.py lines 348-397): an empty record
list returns `(0, [])` before the loop; `batch_size = 0` would make Python
`range` raise, embedded as `none`; otherwise the batch loop runs. -/
def ingestToDatabase (run : String → Option String) (records : List Record)
    (tableName databaseName : String) (batchSize : Nat) :
    Option (Nat × List String) :=
  if records = [] then some (0, [])
  else
    match batchSize with
    | 0 => none
    | b + 1 => some (ingestLoop run tableName databaseName b records 1)

/-! ### The ingestion endpoint -/

/-- Terminal status determination of `ingest_protobuf_data`
(app.py lines 1560-1569). -/
def ingestStatusStr (recordsInserted preparedCount : Nat) : String :=
  if recordsInserted = preparedCount then "completed"
  else if 0 < recordsInserted then "partial"
  else "failed"

/-- The fields of `ProtobufIngestionResponse` that the claims are about. -/
structure IngestionResponse where
  status : String
  recordsProcessed : Nat
  recordsInserted : Nat
  errors : List String
deriving DecidableEq

/-- The core of `ingest_protobuf_data` (app.py lines 1528-1585) after
parameter and schema validation: decode the blob, prepare the records,
batch-insert them, and derive the terminal status.  `records_processed`
counts decoded messages and `errors` is exactly the per-batch error list of
`ingest_to_database`. -/
def ingestProtobufCore (dec : List Byte → Option Record)
    (conv : DbValue → String → DbValue) (now : String)
    (run : String → Option String) (fieldTypes : List (String × String))
    (tableName databaseName : String) (pbData : List Byte) (batchSize : Nat) :
    Option IngestionResponse :=
  let decoded := decodeProtobufMessages dec now pbData
  let prepared := prepareRecords conv now fieldTypes decoded
  match ingestToDatabase run prepared tableName databaseName batchSize with
  | none => none
  | some (ins, errs) =>
    some ⟨ingestStatusStr ins prepared.length, decoded.length, ins, errs⟩

/-! ### Helper lemmas about the ingester -/

/-- Quote escaping doubles every single quote. -/
lemma escapeQuotes_count (cs : List Char) :
    (escapeQuotes cs).count sq = 2 * cs.count sq := by
  induction cs with
  | nil => simp [escapeQuotes]
  | cons c cs ih =>
    by_cases h : c = sq
    · subst h; simp [escapeQuotes, List.count_cons, ih]; omega
    · simp [escapeQuotes, h, List.count_cons, ih]

/-- Quote escaping loses no information: collapsing doubled quotes restores
the original characters. -/
lemma unescape_escape (cs : List Char) :
    unescapeQuotes (escapeQuotes cs) = cs := by
  induction cs with
  | nil => rfl
  | cons c cs ih =>
    by_cases h : c = sq
    · subst h
      simp only [escapeQuotes, if_pos rfl]
      cases hE : escapeQuotes cs with
      | nil => simp [unescapeQuotes, hE] at ih ⊢; exact ih
      | cons e es => simpa [unescapeQuotes, hE] using (hE ▸ ih)
    · simp only [escapeQuotes, if_neg h]
      cases hE : escapeQuotes cs with
      | nil => simp [unescapeQuotes, hE] at ih ⊢; exact ih
      | cons e es =>
        simp [unescapeQuotes, hE, h]
        exact hE ▸ ih

/-- The batch loop never reports more inserted records than it was given. -/
lemma ingestLoopF_fst_le (run : String → Option String) (t d : String) (b : Nat) :
    ∀ (fuel : Nat) (recs : List Record) (k : Nat),
      (ingestLoopF run t d b fuel recs k).1 ≤ recs.length := by
  intro fuel
  induction fuel with
  | zero => intro recs k; simp [ingestLoopF]
  | succ n ih =>
    intro recs k
    match recs with
    | [] => simp [ingestLoopF]
    | r :: rs =>
      have hrec := ih (rs.drop b) (k + 1)
      simp only [ingestLoopF]
      cases run (generateBulkInsertSql ((r :: rs).take (b + 1)) t d) with
      | some err =>
        simp only []
        calc (ingestLoopF run t d b n (rs.drop b) (k + 1)).1
            ≤ (rs.drop b).length := hrec
          _ ≤ (r :: rs).length := by simp [List.length_drop]; omega
      | none =>
        simp only [List.length_take, List.length_drop, List.length_cons] at *
        omega

/-- When every batch insert succeeds, the batch loop inserts every record and
collects no errors. -/
lemma ingestLoopF_all_ok (t d : String) (b : Nat) :
    ∀ (fuel : Nat) (recs : List Record) (k : Nat), recs.length ≤ fuel →
      ingestLoopF (fun _ => none) t d b fuel recs k = (recs.length, []) := by
  intro fuel
  induction fuel with
  | zero =>
    intro recs k h
    have : recs = [] := List.length_eq_zero.mp (Nat.le_zero.mp h)
    subst this; simp [ingestLoopF]
  | succ n ih =>
    intro recs k h
    match recs with
    | [] => simp [ingestLoopF]
    | r :: rs =>
      have hlen : (rs.drop b).length ≤ n := by
        simp only [List.length_cons] at h
        simp [List.length_drop]; omega
      simp only [ingestLoopF, ih (rs.drop b) (k + 1) hlen]
      simp only [List.length_take, List.length_drop, List.length_cons]
      congr 1
      omega

/-- C7: for every non-empty batch of prepared records, the generated single
INSERT statement renders `None` as the unquoted literal `NULL`, a string
inside single quotes with every embedded single quote doubled (losslessly),
a boolean as the literal `TRUE` or `FALSE`, and an int as its decimal text
(a float is rendered by its `str()` text); the statement targets
`database_name.table_name` and lists the column names of the first record. -/
theorem bulk_insert_value_quoting :
    (∀ (r0 : Record) (rs : List Record) (t d : String),
      generateBulkInsertSql (r0 :: rs) t d =
        "\n            INSERT INTO " ++ d ++ "." ++ t ++ " ("
          ++ commaJoin ((r0.map Prod.fst).map quoteCol) ++ ")\n            VALUES "
          ++ commaJoin ((r0 :: rs).map (renderRow (r0.map Prod.fst))) ++ "\n        ")
    ∧ renderValue .null = "NULL"
    ∧ (∀ s : String, renderValue (.str s) = String.mk (sq :: (escapeQuotes s.data ++ [sq])))
    ∧ (∀ cs : List Char, (escapeQuotes cs).count sq = 2 * cs.count sq)
    ∧ (∀ cs : List Char, unescapeQuotes (escapeQuotes cs) = cs)
    ∧ renderValue (.boolean true) = "TRUE"
    ∧ renderValue (.boolean false) = "FALSE"
    ∧ (∀ i : Int, renderValue (.int i) = toString i)
    ∧ (∀ text : String, renderValue (.float text) = text) := by
  refine ⟨?_, rfl, ?_, escapeQuotes_count, unescape_escape, rfl, rfl, ?_, ?_⟩
  · intro r0 rs t d; rfl
  · intro s; rfl
  · intro i; rfl
  · intro text; rfl

/-- C5 (amended): with a positive batch size, the reported status is
COMPLETED iff all prepared records were inserted, PARTIAL iff the inserted
count is strictly between zero and the prepared count, and FAILED iff the
inserted count is zero while at least one record was prepared (with zero
prepared records the inserted count is zero and the status is COMPLETED, not
FAILED); ingesting an empty blob produces 0 records and status COMPLETED. -/
theorem ingestion_status_trichotomy :
    (∀ (run : String → Option String) (records : List Record) (t d : String)
       (b ins : Nat) (errs : List String),
       ingestToDatabase run records t d (b + 1) = some (ins, errs) →
         ((ingestStatusStr ins records.length = "completed" ↔ ins = records.length)
          ∧ (ingestStatusStr ins records.length = "partial"
              ↔ 0 < ins ∧ ins < records.length)
          ∧ (ingestStatusStr ins records.length = "failed"
              ↔ ins = 0 ∧ 0 < records.length)))
    ∧ (∀ (dec : List Byte → Option Record) (conv : DbValue → String → DbValue)
         (now : String) (run : String → Option String)
         (ft : List (String × String)) (t d : String) (b : Nat),
         ingestProtobufCore dec conv now run ft t d [] (b + 1)
           = some ⟨"completed", 0, 0, []⟩) := by
  constructor
  · intro run records t d b ins errs h
    have hle : ins ≤ records.length := by
      by_cases hrec : records = []
      · subst hrec
        simp [ingestToDatabase] at h
        omega
      · simp [ingestToDatabase, hrec] at h
        have hfst : (ingestLoop run t d b records 1).1 = ins := by rw [h]
        have hb := ingestLoopF_fst_le run t d b records.length records 1
        rw [ingestLoop] at hfst
        omega
    have hc : ("completed" : String) ≠ "partial" := by decide
    have hf : ("completed" : String) ≠ "failed" := by decide
    have hpf : ("partial" : String) ≠ "failed" := by decide
    refine ⟨?_, ?_, ?_⟩ <;> unfold ingestStatusStr <;> split_ifs with h1 h2 <;>
      simp_all <;> omega
  · intro dec conv now run ft t d b
    rfl

/-- Witness for C5 (amended): one successfully ingested record and the empty
run, with the hypotheses discharged at concrete inputs. -/
theorem ingestion_status_trichotomy_witness :
    ((ingestStatusStr 1 ([[("a", DbValue.null)]] : List Record).length = "completed"
        ↔ 1 = ([[("a", DbValue.null)]] : List Record).length)
     ∧ (ingestStatusStr 1 ([[("a", DbValue.null)]] : List Record).length = "partial"
        ↔ 0 < 1 ∧ 1 < ([[("a", DbValue.null)]] : List Record).length)
     ∧ (ingestStatusStr 1 ([[("a", DbValue.null)]] : List Record).length = "failed"
        ↔ 1 = 0 ∧ 0 < ([[("a", DbValue.null)]] : List Record).length)) :=
  ingestion_status_trichotomy.1 (fun _ => none) [[("a", DbValue.null)]] "users"
    "demo" 0 1 [] rfl

/-- Counterexample to C5 as stated: the run over an empty blob has inserted
count zero, yet its reported status is COMPLETED and not FAILED, refuting
the biconditional FAILED-iff-inserted-is-zero. -/
theorem ingestion_status_cex :
    ingestProtobufCore (fun _ => none) (fun v _ => v) "T" (fun _ => none)
        [("user_id", "STRING")] "users" "demo" [] 1000
      = some ⟨"completed", 0, 0, []⟩
    ∧ ("completed" : String) ≠ "failed" := by
  exact ⟨rfl, by decide⟩

/-- The per-line decoder used in the concrete three-line ingestion runs:
fragments `[1]` and `[3]` decode, every other fragment is malformed. -/
def dec3 : List Byte → Option Record := fun l =>
  if l = [1] then some [("user_id", DbValue.str "a")]
  else if l = [3] then some [("user_id", DbValue.str "b")] else none

/-- Counterexample to C6 as stated: a 3-line blob whose second line is
malformed yields `records_processed = 2` and `records_inserted = 2` as
claimed, but the response carries an empty `errors` list (the decode failure
is only logged) and status COMPLETED, not PARTIAL. -/
theorem decode_failure_cex :
    ingestProtobufCore dec3 (fun v _ => v) "T" (fun _ => none)
        [("user_id", "STRING")] "users" "demo" [1, 10, 2, 10, 3] 1000
      = some ⟨"completed", 2, 2, []⟩
    ∧ ("completed" : String) ≠ "partial" := by
  exact ⟨rfl, by decide⟩

/-- When every batch insert succeeds, `ingest_to_database` with a positive
batch size inserts every record and reports no errors. -/
lemma ingestToDatabase_all_ok (records : List Record) (t d : String) (b : Nat) :
    ingestToDatabase (fun _ => none) records t d (b + 1)
      = some (records.length, []) := by
  by_cases h : records = []
  · subst h; simp [ingestToDatabase]
  · simp [ingestToDatabase, h, ingestLoop,
      ingestLoopF_all_ok t d b records.length records 1 le_rfl]

/-- C6 (amended): ingesting a 3-line blob whose second line fails to decode,
with all batch inserts succeeding, yields `records_processed = 2` and
`records_inserted = 2`, but the `errors` list of the response is empty (the
per-line decode failure is logged, not surfaced) and the terminal status is
COMPLETED, since every prepared record was inserted. -/
theorem decode_failures_only_logged :
    ∀ (dec : List Byte → Option Record) (conv : DbValue → String → DbValue)
      (now : String) (pbData : List Byte) (l1 l2 l3 : List Byte) (m1 m3 : Record)
      (ft : List (String × String)) (t d : String) (b : Nat),
      pbData.splitOn 10 = [l1, l2, l3] →
      stripBytes l1 ≠ [] → dec (stripBytes l1) = some m1 →
      stripBytes l2 ≠ [] → dec (stripBytes l2) = none →
      stripBytes l3 ≠ [] → dec (stripBytes l3) = some m3 →
      ingestProtobufCore dec conv now (fun _ => none) ft t d pbData (b + 1)
        = some ⟨"completed", 2, 2, []⟩ := by
  intro dec conv now pbData l1 l2 l3 m1 m3 ft t d b hsplit h1ne h1 h2ne h2 h3ne h3
  have hdec : decodeProtobufMessages dec now pbData
      = [m1 ++ [("_line_number", DbValue.int 1), ("_ingestion_timestamp", DbValue.str now)],
         m3 ++ [("_line_number", DbValue.int 3), ("_ingestion_timestamp", DbValue.str now)]] := by
    unfold decodeProtobufMessages
    rw [hsplit]
    simp [decodeLines, h1ne, h1, h2ne, h2, h3ne, h3]
  unfold ingestProtobufCore
  simp only [hdec, prepareRecords, List.map_cons, List.map_nil]
  rw [ingestToDatabase_all_ok]
  simp [ingestStatusStr]

/-- Witness for C6 (amended): the concrete three-line blob `[1,10,2,10,3]`
with its middle fragment malformed. -/
theorem decode_failures_only_logged_witness :
    ingestProtobufCore dec3 (fun v _ => v) "T" (fun _ => none)
        [("user_id", "STRING")] "users" "demo" [1, 10, 2, 10, 3] 1000
      = some ⟨"completed", 2, 2, []⟩ := by
  have h := decode_failures_only_logged dec3 (fun v _ => v) "T" [1, 10, 2, 10, 3]
    [1] [2] [3] [("user_id", DbValue.str "a")] [("user_id", DbValue.str "b")]
    [("user_id", "STRING")] "users" "demo" 999
  exact h rfl (by decide) rfl (by decide) rfl (by decide) rfl

/-! ### Lookup lemmas for prepared records -/

/-- Lookup passes through an append when the key is found on the left. -/
lemma lookup_append_some {β : Type} (l1 l2 : List (String × β)) (a : String)
    (v : β) (h : l1.lookup a = some v) : (l1 ++ l2).lookup a = some v := by
  induction l1 with
  | nil => simp [List.lookup] at h
  | cons p rest ih =>
    simp only [List.cons_append, List.lookup] at h ⊢
    cases hb : (a == p.1) with
    | true => simpa [hb] using h
    | false =>
      rw [hb] at h
      simpa [hb] using ih h

/-- Lookup passes through an append when the key is absent on the left. -/
lemma lookup_append_none {β : Type} (l1 l2 : List (String × β)) (a : String)
    (h : l1.lookup a = none) : (l1 ++ l2).lookup a = l2.lookup a := by
  induction l1 with
  | nil => simp
  | cons p rest ih =>
    simp only [List.cons_append, List.lookup] at h ⊢
    cases hb : (a == p.1) with
    | true => rw [hb] at h; simp at h
    | false =>
      rw [hb] at h
      simpa [hb] using ih h

/-- Looking up a schema field in the converted part of a prepared record:
with distinct schema field names, the entry of field `fname` is the converted
message value when present and the type default when absent. -/
lemma prepared_lookup_mem (conv : DbValue → String → DbValue) (now : String) :
    ∀ (ft : List (String × String)) (msg : Record) (fname ftype : String),
      (ft.map Prod.fst).Nodup → (fname, ftype) ∈ ft →
      (ft.map (fun p =>
        match msg.lookup p.1 with
        | some v => (p.1, conv v p.2)
        | none => (p.1, getDefaultValue now p.2))).lookup fname
        = some (match msg.lookup fname with
            | some v => conv v ftype
            | none => getDefaultValue now ftype) := by
  intro ft
  induction ft with
  | nil => intro msg fname ftype hnd hmem; cases hmem
  | cons p rest ih =>
    intro msg fname ftype hnd hmem
    obtain ⟨pn, pt⟩ := p
    rcases List.mem_cons.mp hmem with heq | hmem2
    · rw [Prod.mk.injEq] at heq
      obtain ⟨h1, h2⟩ := heq
      subst h1; subst h2
      cases hm : msg.lookup fname <;> simp [List.lookup, hm]
    · have hne : pn ≠ fname := by
        intro hcontra
        have hmemf : fname ∈ rest.map Prod.fst :=
          List.mem_map.mpr ⟨(fname, ftype), hmem2, rfl⟩
        rw [List.map_cons] at hnd
        subst hcontra
        exact (List.nodup_cons.mp hnd).1 hmemf
      have hnd2 : (rest.map Prod.fst).Nodup := by
        rw [List.map_cons] at hnd
        exact (List.nodup_cons.mp hnd).2
      have hstep := ih msg fname ftype hnd2 hmem2
      have hbeq : (fname == pn) = false := by
        rw [beq_eq_false_iff_ne]
        exact Ne.symm hne
      cases hm : msg.lookup pn <;> simp [List.lookup, hm, hbeq, hstep]

/-- Looking up a name not among the schema fields in the converted part of a
prepared record finds nothing. -/
lemma prepared_lookup_not_mem (conv : DbValue → String → DbValue) (now : String) :
    ∀ (ft : List (String × String)) (msg : Record) (k : String),
      k ∉ ft.map Prod.fst →
      (ft.map (fun p =>
        match msg.lookup p.1 with
        | some v => (p.1, conv v p.2)
        | none => (p.1, getDefaultValue now p.2))).lookup k = none := by
  intro ft
  induction ft with
  | nil => intro msg k h; simp [List.lookup]
  | cons p rest ih =>
    intro msg k h
    rw [List.map_cons] at h
    have h1 : k ≠ p.1 := fun hc => h (by rw [hc]; exact List.mem_cons_self _ _)
    have h2 : k ∉ rest.map Prod.fst := fun hc => h (List.mem_cons_of_mem _ hc)
    have hbeq : (k == p.1) = false := by
      rw [beq_eq_false_iff_ne]
      exact h1
    cases hm : msg.lookup p.1 <;>
      simp [List.lookup, hm, hbeq, ih msg k h2]

/-- The keys of a prepared record are exactly the schema field names followed
by the two bookkeeping keys. -/
lemma prepareRecord_keys (conv : DbValue → String → DbValue) (now : String)
    (ft : List (String × String)) (msg : Record) :
    (prepareRecord conv now ft msg).map Prod.fst
      = ft.map Prod.fst ++ ["_line_number", "_ingestion_timestamp"] := by
  unfold prepareRecord
  rw [List.map_append, List.map_map]
  congr 1
  apply List.map_congr_left
  intro p _
  cases hm : msg.lookup p.1 <;> simp [hm]

/-- C10: for every decoded message, the prepared record contains exactly the
top-level schema field names plus `_line_number` and `_ingestion_timestamp`
(assuming distinct schema field names that avoid the two bookkeeping names);
a schema field absent from the message is filled with a fixed type-specific
non-null default (empty string for STRING, 0 for INTEGER, 0.0 for FLOAT,
False for BOOLEAN, the current timestamp for TIMESTAMP, an empty-object
string for RECORD, an empty-array string for REPEATED) rather than NULL, and
message keys not named in the schema are dropped. -/
theorem prepared_record_shape :
    ∀ (conv : DbValue → String → DbValue) (now : String)
      (ft : List (String × String)) (msg : Record),
      (ft.map Prod.fst).Nodup →
      "_line_number" ∉ ft.map Prod.fst →
      "_ingestion_timestamp" ∉ ft.map Prod.fst →
      ((prepareRecord conv now ft msg).map Prod.fst
          = ft.map Prod.fst ++ ["_line_number", "_ingestion_timestamp"])
      ∧ (∀ fname ftype, (fname, ftype) ∈ ft → msg.lookup fname = none →
          (prepareRecord conv now ft msg).lookup fname
            = some (getDefaultValue now ftype))
      ∧ (getDefaultValue now "STRING" = .str ""
         ∧ getDefaultValue now "INTEGER" = .int 0
         ∧ getDefaultValue now "FLOAT" = .float "0.0"
         ∧ getDefaultValue now "BOOLEAN" = .boolean false
         ∧ getDefaultValue now "TIMESTAMP" = .str now
         ∧ getDefaultValue now "RECORD" = .str "\x7b\x7d"
         ∧ getDefaultValue now "REPEATED" = .str "[]")
      ∧ (∀ k, k ∉ ft.map Prod.fst → k ≠ "_line_number" →
          k ≠ "_ingestion_timestamp" →
          (prepareRecord conv now ft msg).lookup k = none) := by
  intro conv now ft msg hnd hln hit
  refine ⟨prepareRecord_keys conv now ft msg, ?_, ?_, ?_⟩
  · intro fname ftype hmem habsent
    unfold prepareRecord
    have hmap := prepared_lookup_mem conv now ft msg fname ftype hnd hmem
    rw [habsent] at hmap
    exact lookup_append_some _ _ _ _ hmap
  · refine ⟨rfl, rfl, rfl, rfl, rfl, rfl, rfl⟩
  · intro k hk hk1 hk2
    unfold prepareRecord
    rw [lookup_append_none _ _ _ (prepared_lookup_not_mem conv now ft msg k hk)]
    have hb1 : (k == "_line_number") = false := by
      rw [beq_eq_false_iff_ne]; exact hk1
    have hb2 : (k == "_ingestion_timestamp") = false := by
      rw [beq_eq_false_iff_ne]; exact hk2
    simp [List.lookup, hb1, hb2]

/-- Witness for C10: a two-field schema against a message carrying one schema
field and one extraneous key; the absent INTEGER field defaults to 0 and the
extraneous key is dropped. -/
theorem prepared_record_shape_witness :
    ((prepareRecord (fun v _ => v) "T" [("user_id", "STRING"), ("age", "INTEGER")]
        [("user_id", DbValue.str "x"), ("extra", DbValue.int 5)]).map Prod.fst
      = ["user_id", "age"] ++ ["_line_number", "_ingestion_timestamp"])
    ∧ (prepareRecord (fun v _ => v) "T" [("user_id", "STRING"), ("age", "INTEGER")]
        [("user_id", DbValue.str "x"), ("extra", DbValue.int 5)]).lookup "age"
      = some (getDefaultValue "T" "INTEGER")
    ∧ (prepareRecord (fun v _ => v) "T" [("user_id", "STRING"), ("age", "INTEGER")]
        [("user_id", DbValue.str "x"), ("extra", DbValue.int 5)]).lookup "extra"
      = none := by
  have h := prepared_record_shape (fun v _ => v) "T"
    [("user_id", "STRING"), ("age", "INTEGER")]
    [("user_id", DbValue.str "x"), ("extra", DbValue.int 5)]
    (by decide) (by decide) (by decide)
  exact ⟨h.1, h.2.1 "age" "INTEGER" (by decide) rfl,
    h.2.2.2 "extra" (by decide) (by decide) (by decide)⟩

/-! ### Request validation at the service boundary -/

/-- Pydantic validation of `QueryRequest` (app.py lines 44-49): `priority`
carries `ge=1, le=5` and `estimated_slots` carries `ge=1, le=10`;
`max_execution_time` is declared with a default only and no bounds. -/
def queryRequestAccepts (priority estimatedSlots maxExecutionTime : Int) : Bool :=
  decide (1 ≤ priority) && decide (priority ≤ 5)
    && decide (1 ≤ estimatedSlots) && decide (estimatedSlots ≤ 10)

/-- Pydantic validation of `ProtobufIngestionRequest` (app.py lines 216-227):
`target_engine` must be one of the two engines and `batch_size` carries
`ge=1, le=10000`.  The model is defined in the source but not used by the
ingestion endpoint. -/
def protobufIngestionRequestAccepts (targetEngine : String) (batchSize : Int) :
    Bool :=
  (targetEngine == "duckdb" || targetEngine == "clickhouse")
    && decide (1 ≤ batchSize) && decide (batchSize ≤ 10000)

/-- Parameter validation actually performed by the `ingest_protobuf_data`
endpoint (app.py lines 1443-1490): the engine must be a known runner and the
upload must have a `.pb` name; `batch_size` arrives as a bare form integer
and is not checked. -/
def ingestEndpointParamsAccept (targetEngine filename : String)
    (batchSize : Int) : Bool :=
  (targetEngine == "duckdb" || targetEngine == "clickhouse")
    && (".pb".data.isSuffixOf filename.data)

/-- Counterexample to C8 as stated: a query submission with
`max_execution_time = 0` (outside `[1, 3600]`) passes validation, and the
ingestion endpoint accepts `batch_size = 0` (outside `[1, 10000]`). -/
theorem numeric_bounds_cex :
    queryRequestAccepts 1 1 0 = true
    ∧ ¬ (1 ≤ (0 : Int) ∧ (0 : Int) ≤ 3600)
    ∧ ingestEndpointParamsAccept "duckdb" "data.pb" 0 = true
    ∧ ¬ (1 ≤ (0 : Int)) := by decide

/-- C8 (amended): accepted query submissions satisfy `priority ∈ [1, 5]` and
`estimated_slots ∈ [1, 10]`, and out-of-range values for those fields are
rejected; `max_execution_time` is not validated and any integer is accepted;
`batch_size ∈ [1, 10000]` is enforced only by the unused
`ProtobufIngestionRequest` model, while the ingestion endpoint itself accepts
any integer `batch_size`. -/
theorem numeric_bounds_amended :
    (∀ p e m : Int,
      queryRequestAccepts p e m = true ↔ (1 ≤ p ∧ p ≤ 5 ∧ 1 ≤ e ∧ e ≤ 10))
    ∧ (∀ (eng : String) (b : Int),
        protobufIngestionRequestAccepts eng b = true
          ↔ ((eng = "duckdb" ∨ eng = "clickhouse") ∧ 1 ≤ b ∧ b ≤ 10000))
    ∧ (∀ (eng f : String) (b b2 : Int),
        ingestEndpointParamsAccept eng f b = ingestEndpointParamsAccept eng f b2) := by
  refine ⟨?_, ?_, ?_⟩
  · intro p e m
    simp only [queryRequestAccepts, Bool.and_eq_true, decide_eq_true_eq]
    tauto
  · intro eng b
    simp only [protobufIngestionRequestAccepts, Bool.and_eq_true,
      Bool.or_eq_true, beq_iff_eq, decide_eq_true_eq]
    tauto
  · intro eng f b b2
    rfl

/-! ### The schema registry

The registry state holds the three relations of `schema_registry.py`: the
`schemas` table keyed by `schema_id`, the `schema_versions` rows, and the
`schema_fields` rows.  The canonical serialization `json.dumps(-, sort_keys)`
and the truncated SHA-256 of `_generate_schema_hash` are Python library
calls, abstracted as the parameters `dumps` and `hash16`; the rows written by
`_store_schema_fields` are abstracted as `storeFields`.  Schema JSON is a
list of field definitions of an abstract type. -/

/-- One row of the `schemas` relation. -/
structure SchemaRow where
  tableName : String
  databaseName : String
  currentVersionHash : String
  createdAt : String
  lastUpdated : String
  totalVersions : Nat
deriving DecidableEq

/-- One row of the `schema_versions` relation. -/
structure VersionRow where
  schemaId : String
  versionHash : String
  protoContent : Option String
  schemaJson : String
  createdAt : String
deriving DecidableEq

/-- The registry database state; `F` is the type of `schema_fields` rows. -/
structure RegState (F : Type) where
  schemas : List (String × SchemaRow)
  versions : List VersionRow
  fieldRows : List F

/-- `register_schema_from_json` (schema_registry.py lines 338-436): reject an
empty field list; compute the canonical content and its hash; if the schema
id is present with the same hash, return the id without touching the store
(the early return precedes field storage); if present with a different hash,
append a version row, bump `total_versions` and store field rows; if absent,
create the schema row (with `total_versions = 1`), the version row and the
field rows. -/
def registerSchemaFromJson {φ F : Type} (dumps : List φ → String)
    (hash16 : String → String) (storeFields : String → String → List φ → List F)
    (now : String) (st : RegState F) (schemaJson : List φ)
    (tableName databaseName : String) (protoContent : Option String) :
    Except String (String × RegState F) :=
  if schemaJson.isEmpty then
    .error "Schema JSON must be a non-empty array of field definitions"
  else
    let schemaContent := dumps schemaJson
    let versionHash := hash16 schemaContent
    let schemaId := databaseName ++ "." ++ tableName
    match st.schemas.lookup schemaId with
    | some row =>
      if row.currentVersionHash = versionHash then .ok (schemaId, st)
      else
        .ok (schemaId,
          { schemas := st.schemas.map (fun p =>
              if p.1 = schemaId then
                (p.1, { p.2 with currentVersionHash := versionHash,
                                 lastUpdated := now,
                                 totalVersions := p.2.totalVersions + 1 })
              else p),
            versions := st.versions ++
              [⟨schemaId, versionHash, protoContent, schemaContent, now⟩],
            fieldRows := st.fieldRows ++ storeFields schemaId versionHash schemaJson })
    | none =>
      .ok (schemaId,
        { schemas := st.schemas ++
            [(schemaId, ⟨tableName, databaseName, versionHash, now, now, 1⟩)],
          versions := st.versions ++
            [⟨schemaId, versionHash, protoContent, schemaContent, now⟩],
          fieldRows := st.fieldRows ++ storeFields schemaId versionHash schemaJson })

/-- C4: registering the same schema JSON twice in succession under a fresh
`{database}.{table}` returns the schema id `d.t` both times, leaves the
current version at the hash of the canonical serialization, leaves
`total_versions` at 1, and makes the second call a no-op: it returns the very
state produced by the first call, inserting no version row and no field
rows. -/
theorem schema_registration_idempotent :
    ∀ {φ F : Type} (dumps : List φ → String) (hash16 : String → String)
      (storeFields : String → String → List φ → List F)
      (now now2 : String) (st : RegState F) (s : List φ) (t d : String)
      (pc pc2 : Option String),
      st.schemas.lookup (d ++ "." ++ t) = none →
      s ≠ [] →
      ∃ st1 : RegState F,
        registerSchemaFromJson dumps hash16 storeFields now st s t d pc
          = .ok (d ++ "." ++ t, st1)
        ∧ registerSchemaFromJson dumps hash16 storeFields now2 st1 s t d pc2
          = .ok (d ++ "." ++ t, st1)
        ∧ (∃ row, st1.schemas.lookup (d ++ "." ++ t) = some row
            ∧ row.currentVersionHash = hash16 (dumps s)
            ∧ row.totalVersions = 1)
        ∧ st1.versions.length = st.versions.length + 1 := by
  intro φ F dumps hash16 storeFields now now2 st s t d pc pc2 hfresh hne
  have hempty : s.isEmpty = false := by
    cases s with
    | nil => exact absurd rfl hne
    | cons a l => rfl
  refine ⟨{ schemas := st.schemas
              ++ [(d ++ "." ++ t, ⟨t, d, hash16 (dumps s), now, now, 1⟩)],
            versions := st.versions
              ++ [⟨d ++ "." ++ t, hash16 (dumps s), pc, dumps s, now⟩],
            fieldRows := st.fieldRows
              ++ storeFields (d ++ "." ++ t) (hash16 (dumps s)) s },
          ?_, ?_, ?_, ?_⟩
  · simp only [registerSchemaFromJson, hempty, Bool.false_eq_true, if_false, hfresh]
  · have hlook : (st.schemas
        ++ [(d ++ "." ++ t, (⟨t, d, hash16 (dumps s), now, now, 1⟩ : SchemaRow))]).lookup
          (d ++ "." ++ t)
        = some ⟨t, d, hash16 (dumps s), now, now, 1⟩ := by
      rw [lookup_append_none _ _ _ hfresh]
      simp [List.lookup]
    simp only [registerSchemaFromJson, hempty, Bool.false_eq_true, if_false, hlook,
      if_pos rfl, if_true]
  · refine ⟨⟨t, d, hash16 (dumps s), now, now, 1⟩, ?_, rfl, rfl⟩
    rw [lookup_append_none _ _ _ hfresh]
    simp [List.lookup]
  · simp

/-- Witness for C4: a concrete double registration of a one-field schema as
`demo.users` in an empty registry. -/
theorem schema_registration_idempotent_witness :
    ∃ st1 : RegState Unit,
      registerSchemaFromJson (fun l => String.intercalate "," l) (fun h => h)
          (fun _ _ l => l.map (fun _ => ())) "T1" ⟨[], [], []⟩ ["x"] "users" "demo"
          none
        = .ok ("demo" ++ "." ++ "users", st1)
      ∧ registerSchemaFromJson (fun l => String.intercalate "," l) (fun h => h)
          (fun _ _ l => l.map (fun _ => ())) "T2" st1 ["x"] "users" "demo" none
        = .ok ("demo" ++ "." ++ "users", st1)
      ∧ (∃ row, st1.schemas.lookup ("demo" ++ "." ++ "users") = some row
          ∧ row.currentVersionHash
              = (fun h => h) ((fun l => String.intercalate "," l) ["x"])
          ∧ row.totalVersions = 1)
      ∧ st1.versions.length = (⟨[], [], []⟩ : RegState Unit).versions.length + 1 := by
  exact @schema_registration_idempotent String Unit
    (fun l => String.intercalate "," l) (fun h => h) (fun _ _ l => l.map (fun _ => ()))
    "T1" "T2" ⟨[], [], []⟩ ["x"] "users" "demo" none none rfl (by decide)

/-! ### The backend job queue and slot accounting (`app.py`)

The global state of `app.py` is `job_queue`, `running_jobs`,
`completed_jobs` and the `available_slots` counter out of `total_slots = 8`.
Job ids are random short strings; they are embedded as the submission index
`seq`, which also stands for the strictly increasing `created_at` timestamp.
A submitted request has already passed `QueryRequest` validation, so the
submit step carries those bounds.  `process_job_queue` admits the head of the
queue whenever at least one slot is free, taking exactly one slot;
`execute_job` frees the slot and moves the job to the completed map on both
the success and failure paths. -/

/-- Total slots of `system_config` (app.py line 251). -/
def appTotalSlots : Nat := 8

/-- One job dictionary of `app.py`. -/
structure Job where
  seq : Nat
  sql : String
  engine : String
  priority : Nat
  estimatedSlots : Nat
  maxExecutionTime : Int
deriving DecidableEq

/-- The mutable backend state of `app.py`. -/
structure AppState where
  nextSeq : Nat
  queue : List Job
  running : List Job
  completed : List (Job × String)
  availableSlots : Nat
deriving DecidableEq

/-- The startup state: empty collections, all slots free. -/
def initialAppState : AppState := ⟨0, [], [], [], appTotalSlots⟩

/-- The sort key of `submit_query` (app.py line 550): priority only; Python
`list.sort` is stable, embedded by the stable `List.mergeSort`. -/
def jobLe (a b : Job) : Bool := decide (a.priority ≤ b.priority)

/-- `submit_query` (app.py lines 524-556): append the new job to the queue
and re-sort the queue stably by priority. -/
def submitQuery (s : AppState) (sql engine : String)
    (priority estimatedSlots : Nat) (maxExecutionTime : Int) : AppState :=
  { s with
    nextSeq := s.nextSeq + 1,
    queue := List.mergeSort
      (s.queue ++ [(⟨s.nextSeq, sql, engine, priority, estimatedSlots,
        maxExecutionTime⟩ : Job)]) jobLe }

/-- Outcome of the `cancel_job` endpoint. -/
inductive CancelResult where
  | removed (message : String) : CancelResult
  | httpError (code : Nat) (detail : String) : CancelResult
deriving DecidableEq

/-- `cancel_job` (app.py lines 673-687): scan the queue and pop the first
match, returning a success message (the popped job dict is discarded and no
CANCELLED state is recorded anywhere); a running job yields a 400 error; an
unknown id a 404. -/
def cancelJob (s : AppState) (jobId : Nat) : CancelResult × AppState :=
  if s.queue.any (fun j => j.seq == jobId) then
    (.removed ("Job " ++ toString jobId ++ " cancelled"),
      { s with queue := s.queue.eraseP (fun j => j.seq == jobId) })
  else if s.running.any (fun j => j.seq == jobId) then
    (.httpError 400 "Cannot cancel running job", s)
  else
    (.httpError 404 ("Job " ++ toString jobId ++ " not found"), s)

/-- `get_job_status` (app.py lines 558-585), reduced to the reported state
string: running jobs first, then completed (whose stored state is
`completed` or `failed`), then queued; an unknown id is a 404, embedded as
`none`. -/
def getJobStatus (s : AppState) (jobId : Nat) : Option String :=
  match s.running.find? (fun j => j.seq == jobId) with
  | some _ => some "running"
  | none =>
    match s.completed.find? (fun p => p.1.seq == jobId) with
    | some p => some p.2
    | none =>
      match s.queue.find? (fun j => j.seq == jobId) with
      | some _ => some "queued"
      | none => none

/-- One scheduler-visible transition of the `app.py` backend: a validated
submission, an admission by `process_job_queue` (head of the queue, whenever
a slot is free, taking exactly one slot), a completion by `execute_job`
(success or failure both free the slot and move the job to the completed
map), or a cancellation. -/
inductive AppStep : AppState → AppState → Prop where
  | submit (s : AppState) (sql engine : String) (priority estimatedSlots : Nat)
      (met : Int) :
      (engine = "duckdb" ∨ engine = "clickhouse") →
      1 ≤ priority → priority ≤ 5 → 1 ≤ estimatedSlots → estimatedSlots ≤ 10 →
      AppStep s (submitQuery s sql engine priority estimatedSlots met)
  | admitHead (s : AppState) (j : Job) (rest : List Job) :
      s.queue = j :: rest → 0 < s.availableSlots →
      AppStep s { s with queue := rest, running := s.running ++ [j],
                         availableSlots := s.availableSlots - 1 }
  | complete (s : AppState) (j : Job) (ok : Bool) :
      j ∈ s.running →
      AppStep s { s with running := s.running.erase j,
                         completed := s.completed
                           ++ [(j, if ok then "completed" else "failed")],
                         availableSlots := s.availableSlots + 1 }
  | cancel (s : AppState) (jobId : Nat) :
      AppStep s (cancelJob s jobId).2

/-- States reachable from startup. -/
def AppReachable (s : AppState) : Prop :=
  Relation.ReflTransGen AppStep initialAppState s

/-- The transitions driven by the scheduler loop and executors alone
(no cancellation endpoint). -/
inductive AppSchedStep : AppState → AppState → Prop where
  | submit (s : AppState) (sql engine : String) (priority estimatedSlots : Nat)
      (met : Int) :
      (engine = "duckdb" ∨ engine = "clickhouse") →
      1 ≤ priority → priority ≤ 5 → 1 ≤ estimatedSlots → estimatedSlots ≤ 10 →
      AppSchedStep s (submitQuery s sql engine priority estimatedSlots met)
  | admitHead (s : AppState) (j : Job) (rest : List Job) :
      s.queue = j :: rest → 0 < s.availableSlots →
      AppSchedStep s { s with queue := rest, running := s.running ++ [j],
                              availableSlots := s.availableSlots - 1 }
  | complete (s : AppState) (j : Job) (ok : Bool) :
      j ∈ s.running →
      AppSchedStep s { s with running := s.running.erase j,
                              completed := s.completed
                                ++ [(j, if ok then "completed" else "failed")],
                              availableSlots := s.availableSlots + 1 }

/-- Every scheduler transition is a backend transition. -/
lemma appSchedStep_appStep {s s2 : AppState} (h : AppSchedStep s s2) :
    AppStep s s2 := by
  cases h with
  | submit sql engine priority estimatedSlots met he h1 h2 h3 h4 =>
    exact AppStep.submit s sql engine priority estimatedSlots met he h1 h2 h3 h4
  | admitHead j rest hq hs => exact AppStep.admitHead s j rest hq hs
  | complete j ok hj => exact AppStep.complete s j ok hj

/-- A job has started when it sits in the running map or has finished. -/
def startedJob (s : AppState) (j : Job) : Prop :=
  j ∈ s.running ∨ ∃ st, (j, st) ∈ s.completed

/-! ### The queue-order invariant of `app.py` -/

/-- Strict queue order: strictly smaller priority number, or equal priority
and earlier submission. -/
def jobLT (a b : Job) : Prop :=
  a.priority < b.priority ∨ (a.priority = b.priority ∧ a.seq < b.seq)

/-- The priority comparison is transitive. -/
lemma jobLe_trans : ∀ a b c : Job,
    jobLe a b = true → jobLe b c = true → jobLe a c = true := by
  intro a b c hab hbc
  simp only [jobLe, decide_eq_true_eq] at *
  omega

/-- The priority comparison is total. -/
lemma jobLe_total : ∀ a b : Job, (jobLe a b || jobLe b a) = true := by
  intro a b
  simp only [jobLe, Bool.or_eq_true, decide_eq_true_eq]
  omega

/-- Two distinct members of a list occur in one of the two orders. -/
lemma mem_pair_sublist {α : Type} {l : List α} {x y : α} (hx : x ∈ l)
    (hy : y ∈ l) (hxy : x ≠ y) : [x, y].Sublist l ∨ [y, x].Sublist l := by
  induction l with
  | nil => cases hx
  | cons a t ih =>
    rcases List.mem_cons.mp hx with rfl | hxt
    · have hyt : y ∈ t := by
        rcases List.mem_cons.mp hy with h | h
        · exact absurd h.symm hxy
        · exact h
      exact Or.inl (List.Sublist.cons₂ x (List.singleton_sublist.mpr hyt))
    · rcases List.mem_cons.mp hy with rfl | hyt
      · exact Or.inr (List.Sublist.cons₂ y (List.singleton_sublist.mpr hxt))
      · rcases ih hxt hyt with h | h
        · exact Or.inl (h.cons a)
        · exact Or.inr (h.cons a)

/-- In a duplicate-free list, two distinct elements occur in only one
order. -/
lemma not_pair_sublist_both {α : Type} {l : List α} (hN : l.Nodup) {x y : α}
    (hxy : x ≠ y) (h1 : [x, y].Sublist l) (h2 : [y, x].Sublist l) : False := by
  induction l with
  | nil => simp at h1
  | cons a t ih =>
    rw [List.nodup_cons] at hN
    cases h1 with
    | cons _ h1t =>
      cases h2 with
      | cons _ h2t => exact ih hN.2 h1t h2t
      | cons₂ _ h2t =>
        exact hN.1 (h1t.subset (by simp))
    | cons₂ _ h1t =>
      cases h2 with
      | cons _ h2t =>
        exact hN.1 (h2t.subset (by simp))
      | cons₂ _ h2t => exact hxy rfl

/-- Stable sorting by priority of a lexicographically ordered queue with a
freshly appended job keeps the queue lexicographically ordered: priorities
are sorted, and the stability of `mergeSort` keeps equal priorities in
submission order. -/
lemma pairwise_jobLT_mergeSort (q : List Job) (c : Job)
    (hq : q.Pairwise jobLT)
    (hseq : ∀ j ∈ q, j.seq < c.seq)
    (hnd : ((q ++ [c]).map Job.seq).Nodup) :
    (List.mergeSort (q ++ [c]) jobLe).Pairwise jobLT := by
  have hndInput : (q ++ [c]).Nodup := hnd.of_map
  have hndOut : (List.mergeSort (q ++ [c]) jobLe).Nodup :=
    ((List.mergeSort_perm (q ++ [c]) jobLe).nodup_iff).mpr hndInput
  have hsorted := List.sorted_mergeSort jobLe_trans jobLe_total (q ++ [c])
  have hR : (q ++ [c]).Pairwise
      (fun x y => x.priority = y.priority → x.seq < y.seq) := by
    rw [List.pairwise_append]
    refine ⟨hq.imp ?_, List.pairwise_singleton _ _, ?_⟩
    · intro x y hxy
      intro hpeq
      rcases hxy with h | h
      · omega
      · exact h.2
    · intro x hx y hy _
      have : y = c := by simpa using hy
      subst this
      exact hseq x hx
  rw [List.pairwise_iff_forall_sublist]
  intro a b hab
  have hle : jobLe a b = true :=
    (List.pairwise_iff_forall_sublist.mp hsorted) hab
  have hple : a.priority ≤ b.priority := by
    simpa [jobLe] using hle
  by_cases hplt : a.priority < b.priority
  · exact Or.inl hplt
  · have hpeq : a.priority = b.priority := by omega
    refine Or.inr ⟨hpeq, ?_⟩
    have hane : a ≠ b := by
      have hpw : List.Pairwise (fun x y : Job => x ≠ y) [a, b] :=
        List.Pairwise.sublist hab hndOut
      exact (List.pairwise_cons.mp hpw).1 b (by simp)
    have hamem : a ∈ q ++ [c] :=
      (List.mergeSort_perm (q ++ [c]) jobLe).subset (hab.subset (by simp))
    have hbmem : b ∈ q ++ [c] :=
      (List.mergeSort_perm (q ++ [c]) jobLe).subset (hab.subset (by simp))
    rcases mem_pair_sublist hamem hbmem hane with hio | hio
    · exact (List.pairwise_iff_forall_sublist.mp hR) hio hpeq
    · have hba : List.Pairwise (fun x y => jobLe x y = true) [b, a] := by
        simp [List.pairwise_cons, jobLe]
        omega
      have hstab := List.sublist_mergeSort jobLe_trans jobLe_total hba hio
      exact (not_pair_sublist_both hndOut hane hab hstab).elim

/-- The multiset of job ids across the three job collections. -/
def allSeqsM (s : AppState) : Multiset Nat :=
  (↑(s.queue.map Job.seq) : Multiset Nat) + ↑(s.running.map Job.seq)
    + ↑(s.completed.map (fun p => p.1.seq))

/-- The backend state invariant: the queue is ordered lexicographically by
(priority, submission index); every stored id is below the submission
counter; and no id occurs twice across the collections. -/
structure AppInv (s : AppState) : Prop where
  sortedQueue : s.queue.Pairwise jobLT
  seqBound : ∀ n ∈ allSeqsM s, n < s.nextSeq
  seqNodup : (allSeqsM s).Nodup

/-- The startup state satisfies the invariant. -/
lemma appInv_init : AppInv initialAppState := by
  constructor <;> simp [initialAppState, allSeqsM]

/-- Effect of a submission on the id multiset: the fresh id joins. -/
lemma allSeqsM_submit (s : AppState) (sql engine : String)
    (pri est : Nat) (met : Int) :
    allSeqsM (submitQuery s sql engine pri est met)
      = allSeqsM s + {s.nextSeq} := by
  unfold allSeqsM submitQuery
  simp only []
  have hperm :
      ((List.mergeSort
        (s.queue ++ [(⟨s.nextSeq, sql, engine, pri, est, met⟩ : Job)]) jobLe).map
          Job.seq).Perm
        ((s.queue ++ [(⟨s.nextSeq, sql, engine, pri, est, met⟩ : Job)]).map Job.seq) :=
    (List.mergeSort_perm _ _).map Job.seq
  rw [Multiset.coe_eq_coe.mpr hperm]
  rw [List.map_append, ← Multiset.coe_add]
  simp only [List.map_cons, List.map_nil]
  rw [show (↑([s.nextSeq] : List Nat) : Multiset Nat) = {s.nextSeq} from rfl]
  abel

/-- A submission preserves the invariant. -/
lemma appInv_submit {s : AppState} (hInv : AppInv s) (sql engine : String)
    (pri est : Nat) (met : Int) :
    AppInv (submitQuery s sql engine pri est met) := by
  have hfresh : s.nextSeq ∉ allSeqsM s := fun hmem =>
    absurd (hInv.seqBound s.nextSeq hmem) (by omega)
  have hms := allSeqsM_submit s sql engine pri est met
  refine ⟨?_, ?_, ?_⟩
  · have hqseq : ∀ j ∈ s.queue, j.seq < s.nextSeq := by
      intro j hj
      exact hInv.seqBound j.seq (by
        unfold allSeqsM
        simp only [Multiset.mem_add, Multiset.mem_coe, List.mem_map]
        exact Or.inl (Or.inl ⟨j, hj, rfl⟩))
    have hqnodup : ((s.queue
        ++ [(⟨s.nextSeq, sql, engine, pri, est, met⟩ : Job)]).map Job.seq).Nodup := by
      rw [List.map_append]
      rw [List.nodup_append]
      refine ⟨?_, by simp, ?_⟩
      · have := hInv.seqNodup
        unfold allSeqsM at this
        rw [Multiset.nodup_add] at this
        rw [Multiset.nodup_add] at this
        exact Multiset.coe_nodup.mp this.1.1
      · intro n hn hn2
        simp only [List.map_cons, List.map_nil, List.mem_singleton] at hn2
        rcases List.mem_map.mp hn with ⟨j, hj, rfl⟩
        exact absurd (hqseq j hj) (by omega)
    exact pairwise_jobLT_mergeSort s.queue _ hInv.sortedQueue hqseq hqnodup
  · intro n hn
    rw [hms, Multiset.mem_add] at hn
    simp only [submitQuery]
    rcases hn with h | h
    · have := hInv.seqBound n h
      omega
    · have : n = s.nextSeq := by simpa using h
      omega
  · rw [hms, Multiset.nodup_add]
    refine ⟨hInv.seqNodup, by simp, ?_⟩
    rw [Multiset.disjoint_singleton]
    exact hfresh

/-- Effect of an admission on the id multiset: nothing joins or leaves. -/
lemma allSeqsM_admitHead (s : AppState) (j : Job) (rest : List Job)
    (hq : s.queue = j :: rest) :
    allSeqsM { s with queue := rest, running := s.running ++ [j],
                      availableSlots := s.availableSlots - 1 }
      = allSeqsM s := by
  unfold allSeqsM
  rw [hq]
  simp only [List.map_append, List.map_cons, List.map_nil, ← Multiset.coe_add,
    ← Multiset.cons_coe, ← Multiset.singleton_add, Multiset.coe_nil, add_zero]
  abel

/-- Effect of a completion on the id multiset: nothing joins or leaves. -/
lemma allSeqsM_complete (s : AppState) (j : Job) (st : String)
    (hj : j ∈ s.running) :
    allSeqsM { s with running := s.running.erase j,
                      completed := s.completed ++ [(j, st)],
                      availableSlots := s.availableSlots + 1 }
      = allSeqsM s := by
  unfold allSeqsM
  have hperm : s.running.Perm (j :: s.running.erase j) := List.perm_cons_erase hj
  have hperm2 : (s.running.map Job.seq).Perm
      (j.seq :: (s.running.erase j).map Job.seq) := hperm.map Job.seq
  rw [Multiset.coe_eq_coe.mpr hperm2]
  simp only [List.map_append, List.map_cons, List.map_nil, ← Multiset.coe_add,
    ← Multiset.cons_coe, ← Multiset.singleton_add, Multiset.coe_nil, add_zero]
  abel

/-- An admission preserves the invariant. -/
lemma appInv_admitHead {s : AppState} (hInv : AppInv s) (j : Job) (rest : List Job)
    (hq : s.queue = j :: rest) :
    AppInv { s with queue := rest, running := s.running ++ [j],
                    availableSlots := s.availableSlots - 1 } := by
  have hms := allSeqsM_admitHead s j rest hq
  refine ⟨?_, ?_, ?_⟩
  · have := hInv.sortedQueue
    rw [hq] at this
    exact this.of_cons
  · intro n hn
    rw [hms] at hn
    exact hInv.seqBound n hn
  · rw [hms]
    exact hInv.seqNodup

/-- A completion preserves the invariant. -/
lemma appInv_complete {s : AppState} (hInv : AppInv s) (j : Job) (st : String)
    (hj : j ∈ s.running) :
    AppInv { s with running := s.running.erase j,
                    completed := s.completed ++ [(j, st)],
                    availableSlots := s.availableSlots + 1 } := by
  have hms := allSeqsM_complete s j st hj
  refine ⟨hInv.sortedQueue, ?_, ?_⟩
  · intro n hn
    rw [hms] at hn
    exact hInv.seqBound n hn
  · rw [hms]
    exact hInv.seqNodup

/-- A cancellation preserves the invariant. -/
lemma appInv_cancel {s : AppState} (hInv : AppInv s) (jobId : Nat) :
    AppInv (cancelJob s jobId).2 := by
  unfold cancelJob
  by_cases h1 : s.queue.any (fun j => j.seq == jobId)
  · simp only [h1, if_true]
    have hsub : (s.queue.eraseP (fun j => j.seq == jobId)).Sublist s.queue :=
      List.eraseP_sublist s.queue
    have hle : allSeqsM { s with
          queue := s.queue.eraseP (fun j => j.seq == jobId) } ≤ allSeqsM s := by
      unfold allSeqsM
      simp only []
      have : ((s.queue.eraseP (fun j => j.seq == jobId)).map Job.seq).Sublist
          (s.queue.map Job.seq) := hsub.map Job.seq
      exact add_le_add (add_le_add (Multiset.coe_le.mpr this.subperm) le_rfl) le_rfl
    refine ⟨?_, ?_, ?_⟩
    · exact List.Pairwise.sublist hsub hInv.sortedQueue
    · intro n hn
      exact hInv.seqBound n (Multiset.mem_of_le hle hn)
    · exact Multiset.nodup_of_le hle hInv.seqNodup
  · simp only [h1, if_false]
    by_cases h2 : s.running.any (fun j => j.seq == jobId)
    · simp only [h2, if_true]
      exact hInv
    · simp only [h2, if_false]
      exact hInv

/-- Every backend transition preserves the invariant. -/
lemma appInv_step {s s2 : AppState} (hInv : AppInv s) (h : AppStep s s2) :
    AppInv s2 := by
  cases h with
  | submit sql engine priority estimatedSlots met he h1 h2 h3 h4 =>
    exact appInv_submit hInv sql engine priority estimatedSlots met
  | admitHead j rest hq hs => exact appInv_admitHead hInv j rest hq
  | complete j ok hj => exact appInv_complete hInv j _ hj
  | cancel jobId => exact appInv_cancel hInv jobId

/-- Every reachable backend state satisfies the invariant. -/
lemma appInv_reachable {s : AppState} (h : AppReachable s) : AppInv s := by
  induction h with
  | refl => exact appInv_init
  | tail hrtg hstep ih => exact appInv_step ih hstep

/-- An invariant state has a duplicate-free queue. -/
lemma queue_nodup {s : AppState} (hInv : AppInv s) : s.queue.Nodup := by
  have h := hInv.seqNodup
  unfold allSeqsM at h
  rw [Multiset.nodup_add] at h
  rw [Multiset.nodup_add] at h
  exact List.Nodup.of_map Job.seq (Multiset.coe_nodup.mp h.1.1)

/-- In an invariant state, a started job is no longer queued. -/
lemma started_not_queued {s : AppState} (hInv : AppInv s) {j : Job}
    (hst : startedJob s j) (hq : j ∈ s.queue) : False := by
  have h := hInv.seqNodup
  unfold allSeqsM at h
  rw [Multiset.nodup_add] at h
  have hqmem : j.seq ∈ (↑(s.queue.map Job.seq) : Multiset Nat) := by
    rw [Multiset.mem_coe]
    exact List.mem_map.mpr ⟨j, hq, rfl⟩
  rcases hst with hrun | ⟨st, hcomp⟩
  · have hinner := Multiset.nodup_add.mp h.1
    have hrmem : j.seq ∈ (↑(s.running.map Job.seq) : Multiset Nat) := by
      rw [Multiset.mem_coe]
      exact List.mem_map.mpr ⟨j, hrun, rfl⟩
    exact Multiset.disjoint_left.mp hinner.2.2 hqmem hrmem
  · have hcmem : j.seq ∈ (↑(s.completed.map (fun p => p.1.seq)) : Multiset Nat) := by
      rw [Multiset.mem_coe]
      exact List.mem_map.mpr ⟨(j, st), hcomp, rfl⟩
    have houter := h.2.2
    exact Multiset.disjoint_left.mp houter (Multiset.mem_add.mpr (Or.inl hqmem)) hcmem

/-- In an invariant state, a lexicographically smaller job sits ahead of a
larger one in the queue. -/
lemma queue_pair_sublist {s : AppState} (hInv : AppInv s) {A B : Job}
    (hA : A ∈ s.queue) (hB : B ∈ s.queue) (hlt : jobLT A B) :
    [A, B].Sublist s.queue := by
  have hAB : A ≠ B := by
    intro h
    subst h
    unfold jobLT at hlt
    omega
  rcases mem_pair_sublist hA hB hAB with h | h
  · exact h
  · have hba := (List.pairwise_iff_forall_sublist.mp hInv.sortedQueue) h
    unfold jobLT at hlt hba
    omega

/-- One scheduler transition either keeps the pair order in the queue or has
already started the earlier job. -/
lemma pair_step {s s2 : AppState} (hstep : AppSchedStep s s2)
    {A B : Job} (hle : jobLe A B = true)
    (h : [A, B].Sublist s.queue ∨ startedJob s A) :
    [A, B].Sublist s2.queue ∨ startedJob s2 A := by
  cases hstep with
  | submit sql engine priority estimatedSlots met he h1 h2 h3 h4 =>
    rcases h with hsub | hstart
    · left
      have hpw : List.Pairwise (fun x y => jobLe x y = true) [A, B] := by
        simp [List.pairwise_cons, hle]
      exact List.sublist_mergeSort jobLe_trans jobLe_total hpw
        (hsub.trans (List.sublist_append_left s.queue _))
    · right
      rcases hstart with hrun | ⟨st, hcomp⟩
      · exact Or.inl hrun
      · exact Or.inr ⟨st, hcomp⟩
  | admitHead j rest hq hs =>
    rcases h with hsub | hstart
    · rw [hq] at hsub
      cases hsub with
      | cons _ ht =>
        exact Or.inl ht
      | cons₂ _ ht =>
        right
        left
        simp
    · right
      rcases hstart with hrun | ⟨st, hcomp⟩
      · exact Or.inl (by simp [hrun])
      · exact Or.inr ⟨st, hcomp⟩
  | complete j ok hj =>
    rcases h with hsub | hstart
    · exact Or.inl hsub
    · right
      rcases hstart with hrun | ⟨st, hcomp⟩
      · by_cases hAj : A = j
        · subst hAj
          exact Or.inr ⟨if ok then "completed" else "failed", by simp⟩
        · exact Or.inl (by
            simp only []
            exact (List.mem_erase_of_ne hAj).mpr hrun)
      · exact Or.inr ⟨st, by simp [hcomp]⟩

/-- C9: for every pair of jobs A and B pending in the queue together in a
reachable backend state, if A and B have equal priority and A was submitted
earlier (smaller submission index), or A has a strictly lower priority
number, then along any continuation of scheduler transitions (submissions,
admissions, completions), whenever B has started, A has already started:
A is admitted no later than B. -/
theorem priority_law :
    ∀ s : AppState, AppReachable s → ∀ A B : Job,
      A ∈ s.queue → B ∈ s.queue →
      ((A.priority = B.priority ∧ A.seq < B.seq) ∨ A.priority < B.priority) →
      ∀ s2 : AppState, Relation.ReflTransGen AppSchedStep s s2 →
        startedJob s2 B → startedJob s2 A := by
  intro s hreach A B hA hB hcond s2 hsteps hBstart
  have hInv := appInv_reachable hreach
  have hlt : jobLT A B := by
    unfold jobLT
    tauto
  have hle : jobLe A B = true := by
    unfold jobLT at hlt
    simp only [jobLe, decide_eq_true_eq]
    omega
  have hsub0 : [A, B].Sublist s.queue := queue_pair_sublist hInv hA hB hlt
  have key : AppInv s2 ∧ ([A, B].Sublist s2.queue ∨ startedJob s2 A) := by
    clear hBstart
    induction hsteps with
    | refl => exact ⟨hInv, Or.inl hsub0⟩
    | tail hrtg hstep ih =>
      exact ⟨appInv_step ih.1 (appSchedStep_appStep hstep),
        pair_step hstep hle ih.2⟩
  rcases key.2 with hsub | hstart
  · have hBq : B ∈ s2.queue := hsub.subset (by simp)
    exact (started_not_queued key.1 hBstart hBq).elim
  · exact hstart

/-- Witness for C9: two equal-priority jobs submitted in order are admitted
in order; after both admissions the earlier job has started. -/
theorem priority_law_witness :
    startedJob
      { nextSeq := 2, queue := [],
        running := [(⟨0, "a", "duckdb", 1, 1, 300⟩ : Job),
                    (⟨1, "b", "duckdb", 1, 1, 300⟩ : Job)],
        completed := [], availableSlots := 6 }
      ⟨0, "a", "duckdb", 1, 1, 300⟩ := by
  have h1 : (submitQuery initialAppState "a" "duckdb" 1 1 300).queue
      = [(⟨0, "a", "duckdb", 1, 1, 300⟩ : Job)] := by
    simp only [submitQuery, initialAppState]
    rw [List.mergeSort_of_sorted (by simp)]
    rfl
  have h2 : (submitQuery (submitQuery initialAppState "a" "duckdb" 1 1 300)
      "b" "duckdb" 1 1 300).queue
      = [(⟨0, "a", "duckdb", 1, 1, 300⟩ : Job),
         (⟨1, "b", "duckdb", 1, 1, 300⟩ : Job)] := by
    rw [show (submitQuery (submitQuery initialAppState "a" "duckdb" 1 1 300)
        "b" "duckdb" 1 1 300).queue
        = List.mergeSort
            ((submitQuery initialAppState "a" "duckdb" 1 1 300).queue
              ++ [(⟨1, "b", "duckdb", 1, 1, 300⟩ : Job)]) jobLe from rfl]
    rw [h1]
    rw [List.mergeSort_of_sorted (by simp [jobLe])]
    rfl
  have step1 : AppStep initialAppState
      (submitQuery initialAppState "a" "duckdb" 1 1 300) :=
    AppStep.submit initialAppState "a" "duckdb" 1 1 300 (Or.inl rfl)
      (by omega) (by omega) (by omega) (by omega)
  have step2 : AppStep (submitQuery initialAppState "a" "duckdb" 1 1 300)
      (submitQuery (submitQuery initialAppState "a" "duckdb" 1 1 300)
        "b" "duckdb" 1 1 300) :=
    AppStep.submit _ "b" "duckdb" 1 1 300 (Or.inl rfl)
      (by omega) (by omega) (by omega) (by omega)
  have hreach : AppReachable (submitQuery
      (submitQuery initialAppState "a" "duckdb" 1 1 300) "b" "duckdb" 1 1 300) :=
    Relation.ReflTransGen.tail (Relation.ReflTransGen.tail
      Relation.ReflTransGen.refl step1) step2
  have t1 : AppSchedStep
      (submitQuery (submitQuery initialAppState "a" "duckdb" 1 1 300)
        "b" "duckdb" 1 1 300)
      { submitQuery (submitQuery initialAppState "a" "duckdb" 1 1 300)
          "b" "duckdb" 1 1 300 with
        queue := [(⟨1, "b", "duckdb", 1, 1, 300⟩ : Job)],
        running := (submitQuery (submitQuery initialAppState "a" "duckdb" 1 1 300)
          "b" "duckdb" 1 1 300).running ++ [(⟨0, "a", "duckdb", 1, 1, 300⟩ : Job)],
        availableSlots := (submitQuery
          (submitQuery initialAppState "a" "duckdb" 1 1 300)
          "b" "duckdb" 1 1 300).availableSlots - 1 } :=
    AppSchedStep.admitHead _ _ _ h2 (by decide)
  have t2 : AppSchedStep
      { submitQuery (submitQuery initialAppState "a" "duckdb" 1 1 300)
          "b" "duckdb" 1 1 300 with
        queue := [(⟨1, "b", "duckdb", 1, 1, 300⟩ : Job)],
        running := (submitQuery (submitQuery initialAppState "a" "duckdb" 1 1 300)
          "b" "duckdb" 1 1 300).running ++ [(⟨0, "a", "duckdb", 1, 1, 300⟩ : Job)],
        availableSlots := (submitQuery
          (submitQuery initialAppState "a" "duckdb" 1 1 300)
          "b" "duckdb" 1 1 300).availableSlots - 1 }
      { nextSeq := 2, queue := [],
        running := [(⟨0, "a", "duckdb", 1, 1, 300⟩ : Job),
                    (⟨1, "b", "duckdb", 1, 1, 300⟩ : Job)],
        completed := [], availableSlots := 6 } :=
    AppSchedStep.admitHead _ _ _ rfl (by decide)
  exact priority_law _ hreach
    ⟨0, "a", "duckdb", 1, 1, 300⟩ ⟨1, "b", "duckdb", 1, 1, 300⟩
    (by rw [h2]; simp) (by rw [h2]; simp)
    (Or.inl ⟨rfl, by decide⟩)
    _ (Relation.ReflTransGen.tail (Relation.ReflTransGen.tail
      Relation.ReflTransGen.refl t1) t2)
    (Or.inl (by simp))

/-- Id-uniqueness facts of an invariant state: queued ids are duplicate-free
and distinct from running and completed ids. -/
lemma seq_parts {s : AppState} (hInv : AppInv s) :
    (s.queue.map Job.seq).Nodup
    ∧ (∀ a ∈ s.queue, ∀ b ∈ s.running, a.seq ≠ b.seq)
    ∧ (∀ a ∈ s.queue, ∀ b ∈ s.completed, a.seq ≠ b.1.seq) := by
  have h := hInv.seqNodup
  unfold allSeqsM at h
  rw [Multiset.nodup_add] at h
  have hin := Multiset.nodup_add.mp h.1
  refine ⟨Multiset.coe_nodup.mp hin.1, ?_, ?_⟩
  · intro a ha b hb heq
    have hm1 : a.seq ∈ (↑(s.queue.map Job.seq) : Multiset Nat) := by
      rw [Multiset.mem_coe]
      exact List.mem_map.mpr ⟨a, ha, rfl⟩
    have hm2 : a.seq ∈ (↑(s.running.map Job.seq) : Multiset Nat) := by
      rw [Multiset.mem_coe]
      exact List.mem_map.mpr ⟨b, hb, heq.symm⟩
    exact (Multiset.disjoint_left.mp hin.2.2 hm1) hm2
  · intro a ha b hb heq
    have hm1 : a.seq ∈ (↑(s.queue.map Job.seq) : Multiset Nat)
        + (↑(s.running.map Job.seq) : Multiset Nat) := by
      refine Multiset.mem_add.mpr (Or.inl ?_)
      rw [Multiset.mem_coe]
      exact List.mem_map.mpr ⟨a, ha, rfl⟩
    have hm2 : a.seq ∈ (↑(s.completed.map (fun p => p.1.seq)) : Multiset Nat) := by
      rw [Multiset.mem_coe]
      exact List.mem_map.mpr ⟨b, hb, heq.symm⟩
    exact (Multiset.disjoint_left.mp h.2.2 hm1) hm2

/-- After removing the first job with a given id from a queue whose ids are
duplicate-free, no job with that id remains. -/
lemma find?_eraseP_none (jobId : Nat) :
    ∀ l : List Job, (l.map Job.seq).Nodup →
      (∃ j ∈ l, j.seq = jobId) →
      (l.eraseP (fun x => x.seq == jobId)).find? (fun x => x.seq == jobId)
        = none := by
  intro l
  induction l with
  | nil => intro _ hmem; rcases hmem with ⟨j, hj, _⟩; cases hj
  | cons a t ih =>
    intro hnd hmem
    rw [List.map_cons, List.nodup_cons] at hnd
    by_cases ha : a.seq = jobId
    · rw [List.eraseP_cons_of_pos (by simp [ha])]
      refine List.find?_eq_none.mpr ?_
      intro x hx
      simp only [beq_iff_eq]
      intro hxid
      exact hnd.1 (List.mem_map.mpr ⟨x, hx, by omega⟩)
    · rw [List.eraseP_cons_of_neg (by simp [ha])]
      have hmem2 : ∃ j ∈ t, j.seq = jobId := by
        rcases hmem with ⟨j, hj, hjid⟩
        rcases List.mem_cons.mp hj with rfl | hjt
        · exact absurd hjid ha
        · exact ⟨j, hjt, hjid⟩
      rw [List.find?_cons_of_neg _ (by simp [ha])]
      exact ih hnd.2 hmem2

/-- C3 (amended): in every reachable backend state, cancelling a QUEUED job
removes it from the queue and reports success, but no CANCELLED state is
recorded: a subsequent `get_job` for that id reports not-found (404) rather
than CANCELLED; cancelling a RUNNING job does not mark a cancellation token
but is rejected with a 400 client error, leaving the state unchanged. -/
theorem cancel_semantics :
    ∀ s : AppState, AppReachable s →
      (∀ j : Job, j ∈ s.queue →
        (cancelJob s j.seq).1
            = CancelResult.removed ("Job " ++ toString j.seq ++ " cancelled")
          ∧ getJobStatus (cancelJob s j.seq).2 j.seq = none)
      ∧ (∀ j : Job, j ∈ s.running →
          cancelJob s j.seq
            = (CancelResult.httpError 400 "Cannot cancel running job", s)) := by
  intro s hreach
  have hInv := appInv_reachable hreach
  obtain ⟨hQnd, hQR, hQC⟩ := seq_parts hInv
  constructor
  · intro j hj
    have hany : s.queue.any (fun x => x.seq == j.seq) = true :=
      List.any_eq_true.mpr ⟨j, hj, by simp⟩
    constructor
    · simp [cancelJob, hany]
    · have hfindR : s.running.find? (fun x => x.seq == j.seq) = none :=
        List.find?_eq_none.mpr (fun x hx => by
          simp only [beq_iff_eq]
          exact fun h => (hQR j hj x hx) h.symm)
      have hfindC : s.completed.find? (fun p => p.1.seq == j.seq) = none :=
        List.find?_eq_none.mpr (fun p hp => by
          simp only [beq_iff_eq]
          exact fun h => (hQC j hj p hp) h.symm)
      have hfindQ : (s.queue.eraseP (fun x => x.seq == j.seq)).find?
          (fun x => x.seq == j.seq) = none :=
        find?_eraseP_none j.seq s.queue hQnd ⟨j, hj, rfl⟩
      simp [cancelJob, hany, getJobStatus, hfindR, hfindC, hfindQ]
  · intro j hj
    have hanyR : s.running.any (fun x => x.seq == j.seq) = true :=
      List.any_eq_true.mpr ⟨j, hj, by simp⟩
    have hanyQ : s.queue.any (fun x => x.seq == j.seq) = false := by
      rw [List.any_eq_false]
      intro x hx
      simp only [beq_iff_eq]
      exact fun h => (hQR x hx j hj) h
    simp [cancelJob, hanyQ, hanyR]

/-- Counterexample to C3 as stated: after cancelling the single queued job,
`get_job` reports not-found (`none`) rather than CANCELLED, and cancelling a
running job is rejected with a 400 error instead of marking a token. -/
theorem cancel_semantics_cex :
    (cancelJob (submitQuery initialAppState "SELECT 1" "duckdb" 1 1 300) 0).1
      = CancelResult.removed "Job 0 cancelled"
    ∧ getJobStatus
        (cancelJob (submitQuery initialAppState "SELECT 1" "duckdb" 1 1 300) 0).2 0
      = none
    ∧ (none : Option String) ≠ some "cancelled"
    ∧ (cancelJob
        { nextSeq := 1, queue := [],
          running := [(⟨0, "SELECT 1", "duckdb", 1, 1, 300⟩ : Job)],
          completed := [], availableSlots := 7 } 0).1
      = CancelResult.httpError 400 "Cannot cancel running job" := by
  have hq : (submitQuery initialAppState "SELECT 1" "duckdb" 1 1 300).queue
      = [(⟨0, "SELECT 1", "duckdb", 1, 1, 300⟩ : Job)] := by
    simp only [submitQuery, initialAppState]
    rw [List.mergeSort_of_sorted (by simp)]
    rfl
  refine ⟨?_, ?_, by simp, ?_⟩
  · simp only [cancelJob, hq]
    simp only [List.any_cons, List.any_nil]
    rfl
  · simp [cancelJob, hq, getJobStatus, submitQuery, initialAppState]
  · simp [cancelJob]

/-- Witness for C3 (amended): the concrete one-job states. -/
theorem cancel_semantics_witness :
    ((cancelJob (submitQuery initialAppState "SELECT 1" "duckdb" 1 1 300) 0).1
        = CancelResult.removed ("Job " ++ toString (0 : Nat) ++ " cancelled")
      ∧ getJobStatus
          (cancelJob (submitQuery initialAppState "SELECT 1" "duckdb" 1 1 300) 0).2 0
        = none)
    ∧ cancelJob
        { submitQuery initialAppState "SELECT 1" "duckdb" 1 1 300 with
          queue := [],
          running := (submitQuery initialAppState "SELECT 1" "duckdb" 1 1 300).running
            ++ [(⟨0, "SELECT 1", "duckdb", 1, 1, 300⟩ : Job)],
          availableSlots := (submitQuery initialAppState
            "SELECT 1" "duckdb" 1 1 300).availableSlots - 1 } 0
      = (CancelResult.httpError 400 "Cannot cancel running job",
         { submitQuery initialAppState "SELECT 1" "duckdb" 1 1 300 with
           queue := [],
           running := (submitQuery initialAppState "SELECT 1" "duckdb" 1 1 300).running
             ++ [(⟨0, "SELECT 1", "duckdb", 1, 1, 300⟩ : Job)],
           availableSlots := (submitQuery initialAppState
             "SELECT 1" "duckdb" 1 1 300).availableSlots - 1 }) := by
  have hq : (submitQuery initialAppState "SELECT 1" "duckdb" 1 1 300).queue
      = [(⟨0, "SELECT 1", "duckdb", 1, 1, 300⟩ : Job)] := by
    simp only [submitQuery, initialAppState]
    rw [List.mergeSort_of_sorted (by simp)]
    rfl
  have hreach : AppReachable (submitQuery initialAppState "SELECT 1" "duckdb" 1 1 300) :=
    Relation.ReflTransGen.tail Relation.ReflTransGen.refl
      (AppStep.submit initialAppState "SELECT 1" "duckdb" 1 1 300 (Or.inl rfl)
        (by omega) (by omega) (by omega) (by omega))
  have hreach2 : AppReachable
      { submitQuery initialAppState "SELECT 1" "duckdb" 1 1 300 with
        queue := [],
        running := (submitQuery initialAppState "SELECT 1" "duckdb" 1 1 300).running
          ++ [(⟨0, "SELECT 1", "duckdb", 1, 1, 300⟩ : Job)],
        availableSlots := (submitQuery initialAppState
          "SELECT 1" "duckdb" 1 1 300).availableSlots - 1 } :=
    Relation.ReflTransGen.tail hreach
      (AppStep.admitHead _ _ _ hq (by decide))
  constructor
  · exact (cancel_semantics _ hreach).1 ⟨0, "SELECT 1", "duckdb", 1, 1, 300⟩
      (by rw [hq]; simp)
  · exact (cancel_semantics _ hreach2).2 ⟨0, "SELECT 1", "duckdb", 1, 1, 300⟩
      (by simp)

/-! ### The slot scheduler of `scripts/scheduler.py`

`BigQueryLiteScheduler` keeps a fixed dict of `Slot` objects with an
availability bit each.  The pool is embedded by the list `availIds` of the
ids whose bit is set: `get_available_slots(n)` is `availIds.take n`, marking
a slot unavailable removes its id, and freeing appends it back.  `running`
pairs each job with the slot ids allocated to it at admission, exactly as
`_execute_and_cleanup` captures `allocated_slots`. -/

/-- One `QueryJob` of `scheduler.py`; `actualSlotsUsed` defaults to 0 at
submission. -/
structure SJob where
  seq : Nat
  sql : String
  engine : String
  priority : Nat
  estimatedSlots : Nat
  actualSlotsUsed : Nat
deriving DecidableEq

/-- Sort key of `submit_query` (scheduler.py line 158):
`(priority, created_at)` in lexicographic order. -/
def sjobLe (a b : SJob) : Bool :=
  decide (a.priority < b.priority
    ∨ (a.priority = b.priority ∧ a.seq ≤ b.seq))

/-- A running job together with the slot ids allocated to it. -/
structure RunEntry where
  job : SJob
  alloc : List Nat
deriving DecidableEq

/-- The scheduler state. -/
structure SState where
  nextSeq : Nat
  totalSlots : Nat
  availIds : List Nat
  queue : List SJob
  running : List RunEntry
  completed : List SJob
deriving DecidableEq

/-- Startup with `n` slots, all available. -/
def initSState (n : Nat) : SState := ⟨0, n, List.range n, [], [], []⟩

/-- `submit_query` (scheduler.py lines 144-161): append and re-sort the
queue by `(priority, created_at)`. -/
def ssubmit (s : SState) (sql engine : String)
    (priority estimatedSlots : Nat) : SState :=
  { s with
    nextSeq := s.nextSeq + 1,
    queue := List.mergeSort
      (s.queue ++ [(⟨s.nextSeq, sql, engine, priority, estimatedSlots, 0⟩ : SJob)])
      sjobLe }

/-- One transition of `scheduler.py`: a submission; an admission by
`schedule_jobs` (lines 249-281: the head job is admitted only when the
available count reaches its `estimated_slots`; the first `estimated_slots`
available slots are allocated and `actual_slots_used` is set to the number
allocated); or a completion by `_execute_and_cleanup` (lines 283-306: the
job leaves the running set and exactly its allocated slots become available
again, on the success and failure paths alike). -/
inductive SStep : SState → SState → Prop where
  | submit (s : SState) (sql engine : String) (priority estimatedSlots : Nat) :
      SStep s (ssubmit s sql engine priority estimatedSlots)
  | admitHead (s : SState) (j : SJob) (rest : List SJob) :
      s.queue = j :: rest →
      j.estimatedSlots ≤ s.availIds.length →
      SStep s { s with
        queue := rest,
        availIds := s.availIds.drop j.estimatedSlots,
        running := s.running
          ++ [⟨{ j with
                actualSlotsUsed := (s.availIds.take j.estimatedSlots).length },
               s.availIds.take j.estimatedSlots⟩] }
  | complete (s : SState) (p : RunEntry) :
      p ∈ s.running →
      SStep s { s with running := s.running.erase p,
                       completed := s.completed ++ [p.job],
                       availIds := s.availIds ++ p.alloc }

/-- Scheduler states reachable from startup with `n` slots. -/
def SReachable (n : Nat) (s : SState) : Prop :=
  Relation.ReflTransGen SStep (initSState n) s

/-- The scheduler invariant: available plus allocated slot counts add to the
pool size, each running job records exactly its allocation size, and queued
ids are below the submission counter. -/
structure SInv (n : Nat) (s : SState) : Prop where
  conserve : s.availIds.length
    + ((s.running.map (fun p => p.alloc.length)).sum) = n
  actualEq : ∀ p ∈ s.running, p.job.actualSlotsUsed = p.alloc.length
  seqBound : ∀ j ∈ s.queue, j.seq < s.nextSeq

/-- The startup state satisfies the scheduler invariant. -/
lemma sInv_init (n : Nat) : SInv n (initSState n) := by
  constructor <;> simp [initSState]

/-- Every scheduler transition preserves the invariant. -/
lemma sInv_step {n : Nat} {s s2 : SState} (hInv : SInv n s)
    (h : SStep s s2) : SInv n s2 := by
  cases h with
  | submit sql engine priority estimatedSlots =>
    refine ⟨hInv.conserve, hInv.actualEq, ?_⟩
    intro j hj
    simp only [ssubmit] at hj ⊢
    have hj2 : j ∈ s.queue
        ++ [(⟨s.nextSeq, sql, engine, priority, estimatedSlots, 0⟩ : SJob)] :=
      (List.mergeSort_perm _ _).subset hj
    rcases List.mem_append.mp hj2 with h | h
    · have := hInv.seqBound j h
      omega
    · have : j = ⟨s.nextSeq, sql, engine, priority, estimatedSlots, 0⟩ := by
        simpa using h
      subst this
      exact Nat.lt_succ_self s.nextSeq
  | admitHead j rest hq hguard =>
    refine ⟨?_, ?_, ?_⟩
    · simp only [List.map_append, List.map_cons, List.map_nil, List.sum_append,
        List.length_drop, List.sum_cons, List.sum_nil, List.length_take]
      have := hInv.conserve
      omega
    · intro p hp
      rcases List.mem_append.mp hp with h | h
      · exact hInv.actualEq p h
      · have : p = ⟨{ j with
            actualSlotsUsed := (s.availIds.take j.estimatedSlots).length },
            s.availIds.take j.estimatedSlots⟩ := by simpa using h
        subst this
        rfl
    · intro x hx
      exact hInv.seqBound x (by rw [hq]; exact List.mem_cons_of_mem j hx)
  | complete p hp =>
    refine ⟨?_, ?_, hInv.seqBound⟩
    · have hperm : s.running.Perm (p :: s.running.erase p) :=
        List.perm_cons_erase hp
      have hsum : ((s.running.map (fun q => q.alloc.length)).sum)
          = p.alloc.length
            + (((s.running.erase p).map (fun q => q.alloc.length)).sum) := by
        have := (hperm.map (fun q => q.alloc.length)).sum_eq
        simpa using this
      simp only [List.length_append]
      have := hInv.conserve
      omega
    · intro q hq
      exact hInv.actualEq q (List.mem_of_mem_erase hq)

/-- Every reachable scheduler state satisfies the invariant. -/
lemma sInv_reachable {n : Nat} {s : SState} (h : SReachable n s) : SInv n s := by
  induction h with
  | refl => exact sInv_init n
  | tail hrtg hstep ih => exact sInv_step ih hstep

/-- The state produced by `schedule_jobs` when it admits the head job `j`:
the first `estimated_slots` available ids are allocated, marked unavailable,
and recorded with the job. -/
def admitTarget (s : SState) (j : SJob) (rest : List SJob) : SState :=
  { s with queue := rest,
           availIds := s.availIds.drop j.estimatedSlots,
           running := s.running
             ++ [⟨{ j with
                   actualSlotsUsed := (s.availIds.take j.estimatedSlots).length },
                  s.availIds.take j.estimatedSlots⟩] }

/-- An over-capacity job survives one scheduler transition in the queue. -/
lemma overcap_stays {n : Nat} {s s2 : SState} (hInv : SInv n s)
    (hstep : SStep s s2) {j : SJob} (hj : j ∈ s.queue)
    (hover : n < j.estimatedSlots) : j ∈ s2.queue := by
  cases hstep with
  | submit sql engine priority estimatedSlots =>
    simp only [ssubmit]
    exact (List.mergeSort_perm _ _).mem_iff.mpr (List.mem_append_left _ hj)
  | admitHead j0 rest hq hguard =>
    have havail : s.availIds.length ≤ n := by
      have := hInv.conserve
      omega
    rw [hq] at hj
    rcases List.mem_cons.mp hj with rfl | hmem
    · exact absurd hguard (by omega)
    · simpa using hmem
  | complete p hp => simpa using hj

/-- C1 (amended): in `scheduler.py`, admission respects estimated slots: the
head job can be admitted when the available count reaches its
`estimated_slots`, in which case exactly `estimated_slots` slots are
reserved and `actual_slots_used` records that number; conversely any
transition that dequeues the head requires that many available slots, and a
job whose `estimated_slots` exceeds the pool size is never admitted and
waits in the queue forever.  In the backend `app.py`, by contrast,
`process_job_queue` admits the head job whenever at least one slot is free,
reserving exactly one slot regardless of `estimated_slots`. -/
theorem admission_slot_policy :
    (∀ (s : SState) (j : SJob) (rest : List SJob),
      s.queue = j :: rest → j.estimatedSlots ≤ s.availIds.length →
      SStep s (admitTarget s j rest)
      ∧ (s.availIds.take j.estimatedSlots).length = j.estimatedSlots
      ∧ (s.availIds.drop j.estimatedSlots).length
          = s.availIds.length - j.estimatedSlots)
    ∧ (∀ (s s2 : SState) (j : SJob) (rest : List SJob),
        SStep s s2 → s.queue = j :: rest → j ∉ s2.queue →
        j.estimatedSlots ≤ s.availIds.length)
    ∧ (∀ (n : Nat) (s : SState) (j : SJob), SReachable n s → j ∈ s.queue →
        n < j.estimatedSlots →
        ∀ s2 : SState, Relation.ReflTransGen SStep s s2 → j ∈ s2.queue)
    ∧ (∀ (s : AppState) (j : Job) (rest : List Job),
        s.queue = j :: rest → 0 < s.availableSlots →
        AppStep s { s with queue := rest, running := s.running ++ [j],
                           availableSlots := s.availableSlots - 1 }) := by
  refine ⟨?_, ?_, ?_, ?_⟩
  · intro s j rest hq hguard
    refine ⟨SStep.admitHead s j rest hq hguard, ?_, List.length_drop _ _⟩
    rw [List.length_take]
    omega
  · intro s s2 j rest hstep hq hnot
    cases hstep with
    | submit sql engine priority estimatedSlots =>
      exact absurd ((List.mergeSort_perm _ _).mem_iff.mpr
        (List.mem_append_left _ (by rw [hq]; simp))) hnot
    | admitHead j0 rest0 hq0 hguard =>
      have heq := hq0.symm.trans hq
      injection heq with h1 h2
      subst h1
      exact hguard
    | complete p hp =>
      exact absurd (by rw [hq]; simp) hnot
  · intro n s j hreach hj hover s2 htrace
    have hInv := sInv_reachable hreach
    have key : SInv n s2 ∧ j ∈ s2.queue := by
      induction htrace with
      | refl => exact ⟨hInv, hj⟩
      | tail hrtg hstep ih =>
        exact ⟨sInv_step ih.1 hstep, overcap_stays ih.1 hstep ih.2 hover⟩
    exact key.2
  · intro s j rest hq hpos
    exact AppStep.admitHead s j rest hq hpos

/-- Counterexample to C1 as stated: in the backend of `app.py`, a job whose
`estimated_slots` is 9 — more than the 8 total slots, hence more than the 8
available — is admitted by `process_job_queue` anyway, with exactly one slot
taken. -/
theorem admission_respects_slots_cex :
    AppReachable (submitQuery initialAppState "SELECT 1" "duckdb" 1 9 300)
    ∧ AppStep (submitQuery initialAppState "SELECT 1" "duckdb" 1 9 300)
        { submitQuery initialAppState "SELECT 1" "duckdb" 1 9 300 with
          queue := [],
          running := (submitQuery initialAppState
            "SELECT 1" "duckdb" 1 9 300).running
            ++ [(⟨0, "SELECT 1", "duckdb", 1, 9, 300⟩ : Job)],
          availableSlots := (submitQuery initialAppState
            "SELECT 1" "duckdb" 1 9 300).availableSlots - 1 }
    ∧ (⟨0, "SELECT 1", "duckdb", 1, 9, 300⟩ : Job) ∈
        ({ submitQuery initialAppState "SELECT 1" "duckdb" 1 9 300 with
          queue := [],
          running := (submitQuery initialAppState
            "SELECT 1" "duckdb" 1 9 300).running
            ++ [(⟨0, "SELECT 1", "duckdb", 1, 9, 300⟩ : Job)],
          availableSlots := (submitQuery initialAppState
            "SELECT 1" "duckdb" 1 9 300).availableSlots - 1 } : AppState).running
    ∧ appTotalSlots < (⟨0, "SELECT 1", "duckdb", 1, 9, 300⟩ : Job).estimatedSlots
    ∧ (submitQuery initialAppState "SELECT 1" "duckdb" 1 9 300).availableSlots
        < (⟨0, "SELECT 1", "duckdb", 1, 9, 300⟩ : Job).estimatedSlots := by
  have hq : (submitQuery initialAppState "SELECT 1" "duckdb" 1 9 300).queue
      = [(⟨0, "SELECT 1", "duckdb", 1, 9, 300⟩ : Job)] := by
    simp only [submitQuery, initialAppState]
    rw [List.mergeSort_of_sorted (by simp)]
    rfl
  refine ⟨?_, AppStep.admitHead _ _ _ hq (by decide), by simp, by decide, by decide⟩
  exact Relation.ReflTransGen.tail Relation.ReflTransGen.refl
    (AppStep.submit initialAppState "SELECT 1" "duckdb" 1 9 300 (Or.inl rfl)
      (by omega) (by omega) (by omega) (by omega))

/-- Witness for C1 (amended): a 6-slot scheduler with one queued 2-slot job
is admitted reserving exactly 2 slots; a 9-slot job in the same pool is
never admitted; and the backend admits a head job with one free slot. -/
theorem admission_slot_policy_witness :
    (SStep (ssubmit (initSState 6) "SELECT 1" "duckdb" 1 2)
        (admitTarget (ssubmit (initSState 6) "SELECT 1" "duckdb" 1 2)
          (⟨0, "SELECT 1", "duckdb", 1, 2, 0⟩ : SJob) [])
      ∧ (((ssubmit (initSState 6) "SELECT 1" "duckdb" 1 2).availIds.take
          (⟨0, "SELECT 1", "duckdb", 1, 2, 0⟩ : SJob).estimatedSlots).length
        = (⟨0, "SELECT 1", "duckdb", 1, 2, 0⟩ : SJob).estimatedSlots)
      ∧ (((ssubmit (initSState 6) "SELECT 1" "duckdb" 1 2).availIds.drop
          (⟨0, "SELECT 1", "duckdb", 1, 2, 0⟩ : SJob).estimatedSlots).length
        = (ssubmit (initSState 6) "SELECT 1" "duckdb" 1 2).availIds.length
          - (⟨0, "SELECT 1", "duckdb", 1, 2, 0⟩ : SJob).estimatedSlots))
    ∧ ((⟨0, "SELECT 1", "duckdb", 1, 2, 0⟩ : SJob).estimatedSlots
        ≤ (ssubmit (initSState 6) "SELECT 1" "duckdb" 1 2).availIds.length)
    ∧ ((⟨0, "SELECT 1", "duckdb", 1, 9, 0⟩ : SJob) ∈
        (ssubmit (initSState 6) "SELECT 1" "duckdb" 1 9).queue)
    ∧ AppStep (submitQuery initialAppState "SELECT 1" "duckdb" 1 1 300)
        { submitQuery initialAppState "SELECT 1" "duckdb" 1 1 300 with
          queue := [],
          running := (submitQuery initialAppState
            "SELECT 1" "duckdb" 1 1 300).running
            ++ [(⟨0, "SELECT 1", "duckdb", 1, 1, 300⟩ : Job)],
          availableSlots := (submitQuery initialAppState
            "SELECT 1" "duckdb" 1 1 300).availableSlots - 1 } := by
  have hq2 : (ssubmit (initSState 6) "SELECT 1" "duckdb" 1 2).queue
      = [(⟨0, "SELECT 1", "duckdb", 1, 2, 0⟩ : SJob)] := by
    simp only [ssubmit, initSState]
    rw [List.mergeSort_of_sorted (by simp)]
    rfl
  have hq9 : (ssubmit (initSState 6) "SELECT 1" "duckdb" 1 9).queue
      = [(⟨0, "SELECT 1", "duckdb", 1, 9, 0⟩ : SJob)] := by
    simp only [ssubmit, initSState]
    rw [List.mergeSort_of_sorted (by simp)]
    rfl
  have hqa : (submitQuery initialAppState "SELECT 1" "duckdb" 1 1 300).queue
      = [(⟨0, "SELECT 1", "duckdb", 1, 1, 300⟩ : Job)] := by
    simp only [submitQuery, initialAppState]
    rw [List.mergeSort_of_sorted (by simp)]
    rfl
  have hreach9 : SReachable 6 (ssubmit (initSState 6) "SELECT 1" "duckdb" 1 9) :=
    Relation.ReflTransGen.tail Relation.ReflTransGen.refl
      (SStep.submit (initSState 6) "SELECT 1" "duckdb" 1 9)
  refine ⟨admission_slot_policy.1 _ _ _ hq2 (by decide), by decide, ?_, ?_⟩
  · exact admission_slot_policy.2.2.1 6 _ _ hreach9 (by rw [hq9]; simp)
      (by decide) _ Relation.ReflTransGen.refl
  · exact admission_slot_policy.2.2.2 _ _ _ hqa (by decide)

/-- C2: slot conservation.  In every reachable scheduler state the available
slot count plus the sum of `actual_slots_used` over the running set equals
the pool size: slots taken at admission are returned on every completion
path.  In every reachable backend state the analogous conservation holds
with the one slot each running job actually takes:
`available_slots + running count = total_slots`. -/
theorem slot_conservation :
    (∀ (n : Nat) (s : SState), SReachable n s →
      s.availIds.length
        + ((s.running.map (fun p => p.job.actualSlotsUsed)).sum) = n)
    ∧ (∀ s : AppState, AppReachable s →
        s.availableSlots + s.running.length = appTotalSlots) := by
  constructor
  · intro n s hreach
    have hInv := sInv_reachable hreach
    have hmap : s.running.map (fun p => p.job.actualSlotsUsed)
        = s.running.map (fun p => p.alloc.length) :=
      List.map_congr_left (fun p hp => hInv.actualEq p hp)
    rw [hmap]
    exact hInv.conserve
  · intro s hreach
    induction hreach with
    | refl => rfl
    | tail hrtg hstep ih =>
      cases hstep with
      | submit sql engine priority estimatedSlots met he h1 h2 h3 h4 =>
        simpa [submitQuery] using ih
      | admitHead j rest hq hpos =>
        simp only [List.length_append, List.length_cons, List.length_nil]
        omega
      | complete j ok hj =>
        have hlen : (List.erase _ j).length = _ - 1 :=
          List.length_erase_of_mem hj
        have hpos := List.length_pos_of_mem hj
        simp only [hlen]
        omega
      | cancel jobId =>
        unfold cancelJob
        split_ifs with h1 h2
        · simpa using ih
        · simpa using ih
        · simpa using ih

/-- Witness for C2: the startup states of a 6-slot scheduler and of the
backend satisfy conservation. -/
theorem slot_conservation_witness :
    ((initSState 6).availIds.length
      + (((initSState 6).running.map (fun p => p.job.actualSlotsUsed)).sum) = 6)
    ∧ initialAppState.availableSlots + initialAppState.running.length
        = appTotalSlots :=
  ⟨slot_conservation.1 6 (initSState 6) Relation.ReflTransGen.refl,
   slot_conservation.2 initialAppState Relation.ReflTransGen.refl⟩
